import Mathlib

/-
Verification development for the prisma-flat-graphql-generator repository.

The generator (src/cli/generate.ts) is embedded shallowly below:

* The DMMF catalogue (models, input types, enums, output types) becomes a
  family of Lean structures mirroring the fields the generator reads.
* JavaScript `Set` objects become insertion-ordered duplicate-free
  `List String` values (`setAdd`); mutation becomes explicit state passing.
* The one aliasing subtlety of the source is modelled faithfully: on the
  first resolver round, `remainingInputTypes` *is* the global
  `usedInputTypes` set, so reads of the local set see writes to the global
  one.  The embedding carries an `aliased` flag for that round.
* `throw new Error(msg)` becomes `Except.error msg`.
* The external pluralize library is out of scope of the repository; the
  name-derivation helpers are parametrised over `pluralizeFn`/`singularFn`.
* The opaque prettier `format` step and the gql template wrapper are the
  formatting boundary: the shared inputTypes artifact is modelled as its
  line list (the `fileContent` array of the source) and per-model artifacts
  as the unformatted strings fed to the formatter.
* Emitted text with braces or apostrophes uses the escapes \x7b \x7d \x27.
* The runtime selection translator (buildPrismaSelect / buildNestedSelect,
  shipped as generated code) is embedded over mutual inductives for
  GraphQL selection sets and for the produced nested select objects.
-/

namespace PFG

/-- One candidate type reference of a DMMF schema argument. -/
structure InputTypeRef where
  type : String
  location : String
  isList : Bool
deriving DecidableEq

/-- A DMMF schema argument (also used for input-object fields). -/
structure SchemaArg where
  name : String
  isRequired : Bool
  inputTypes : List InputTypeRef
deriving DecidableEq

/-- A DMMF input object type. -/
structure InputType where
  name : String
  fields : List SchemaArg
deriving DecidableEq

/-- Prisma 7 enum entry shape: a key/value pair. -/
structure EnumKV where
  key : String
  value : String
deriving DecidableEq

/-- A DMMF enum type; Prisma 5 uses `values`, Prisma 7 uses `data`.
`dataField` models presence of the `data` property (checked first by the
source via `'data' in item`). -/
structure SchemaEnum where
  name : String
  dataField : Option (List EnumKV)
  values : Option (List String)
deriving DecidableEq

/-- A DMMF output type reference. -/
structure OutputTypeRef where
  type : String
  isList : Bool
deriving DecidableEq

/-- A DMMF output object field. -/
structure SchemaField where
  name : String
  args : List SchemaArg
  outputType : OutputTypeRef
  isNullable : Bool
deriving DecidableEq

/-- A DMMF output object type. -/
structure OutputType where
  name : String
  fields : List SchemaField
deriving DecidableEq

/-- The slice of DMMF.Schema read by the generator. -/
structure Schema where
  enumTypesPrisma : List SchemaEnum
  enumTypesModel : List SchemaEnum
  inputObjectTypesPrisma : List InputType
  inputObjectTypesModel : List InputType
  outputObjectTypesPrisma : List OutputType
  outputObjectTypesModel : List OutputType
deriving DecidableEq

/-- A datamodel field (model.fields in the source). -/
structure ModelField where
  name : String
  kind : String
  type : String
  isList : Bool
deriving DecidableEq

/-- A datamodel model. -/
structure Model where
  name : String
  fields : List ModelField
deriving DecidableEq

/-- The slice of DMMF.Document read by the generator. -/
structure Document where
  models : List Model
  schema : Schema
deriving DecidableEq

/-- GraphqlGeneratorOptions (types.ts), restricted to the options generate reads. -/
structure GeneratorOptions where
  models : Option (List String)
  excludeModels : Option (List String)
  excludeInputFields : Option (List String)
  excludeOutputFields : Option (List String)
  queries : Option (List String)
deriving DecidableEq

/-- `const allQueries = ["findFirst", "findMany", "count"]`. -/
def allQueries : List String := [ "findFirst", "findMany", "count" ]

/-- JavaScript `Set.add`: insertion-ordered, ignores duplicates. -/
def setAdd (l : List String) (x : String) : List String :=
  if l.contains x then l else l ++ [ x ]

/-- The overload tie-break of `getInputType`: with several candidate input
types, prefer a list-typed input-object, then any list, then any
input-object, then a Json-named candidate, else the first. -/
def getInputType (field : SchemaArg) : InputTypeRef :=
  let ts := field.inputTypes
  let index :=
    if ts.length > 1 then
      if ts.any (fun item => item.isList && item.location == "inputObjectTypes") then
        ts.findIdx (fun item => item.isList && item.location == "inputObjectTypes")
      else if ts.any (fun item => item.isList) then
        ts.findIdx (fun item => item.isList)
      else if ts.any (fun item => item.location == "inputObjectTypes") then
        ts.findIdx (fun item => item.location == "inputObjectTypes")
      else if ts.any (fun item => item.type == "Json") then
        ts.findIdx (fun item => item.type == "Json")
      else 0
    else 0
  ts.getD index ⟨ "", "", false ⟩

/-- The check of generate.ts line 88: does the (prisma) input type named
`tname` have a required field whose name is excluded?  Note the source
searches only `schema.inputObjectTypes.prisma`. -/
def hasRequiredExcludedField (prismaInputs : List InputType) (exIn : List String)
    (tname : String) : Bool :=
  match prismaInputs.find? (fun t => t.name == tname) with
  | some t => t.fields.any (fun f => f.isRequired && exIn.contains f.name)
  | none => false

/-- The emitted line for one surviving input-object field. -/
def inputFieldLine (field : SchemaArg) (it : InputTypeRef) : String :=
  field.name ++ (": ")
    ++ (if it.isList then ("[") ++ it.type ++ ("!]") else it.type)
    ++ (if field.isRequired then ("!") else (""))

/-- The `input <Name> {` header line. -/
def inputHeader (name : String) : String := ("input ") ++ name ++ (" \x7b")

/-- The `enum <Name> {` header line. -/
def enumHeader (name : String) : String := ("enum ") ++ name ++ (" \x7b")

/-- The error raised for an excluded-to-empty input type that is still used. -/
def emptyInputMessage (name : String) : String :=
  name ++ (" is empty, probably due to excludedInputFields. But it\x27s being used by other parts of the schema")

/-- The mutable state of getInputTypes: the output line buffer, the
written-type set and the global used-type set. -/
structure ResolverState where
  fileContent : List String
  written : List String
  used : List String
deriving DecidableEq

/-- The local used set read inside a resolver round: on the first round it
is the global used set itself (aliasing in the source), afterwards the
snapshot returned by the previous round. -/
def localUsedNow (aliased : Bool) (localSnap : List String) (st : ResolverState) : List String :=
  if aliased then st.used else localSnap

/-- One field of one input object inside addInputObjectTypesToFileContent:
drop excluded fields and fields with unsatisfiable required substructure;
track newly referenced input objects in `remaining` and enums directly in
the global used set; push the field line and bump the survivor count. -/
def processInputField (prismaInputs : List InputType) (exIn : List String)
    (aliased : Bool) (localSnap : List String)
    (acc : ResolverState × List String × Nat) (field : SchemaArg) :
    ResolverState × List String × Nat :=
  let st := acc.1
  let remaining := acc.2.1
  let cnt := acc.2.2
  if exIn.contains field.name then acc
  else
    let it := getInputType field
    if hasRequiredExcludedField prismaInputs exIn it.type then acc
    else
      let lu := localUsedNow aliased localSnap st
      let next :=
        if lu.contains it.type then (st, remaining)
        else if it.location == "inputObjectTypes" then (st, setAdd remaining it.type)
        else if it.location == "enumTypes" then
          ((⟨ st.fileContent, st.written, setAdd st.used it.type ⟩ : ResolverState), remaining)
        else (st, remaining)
      (⟨ next.1.fileContent ++ [ inputFieldLine field it ], next.1.written, next.1.used ⟩,
        next.2, cnt + 1)

/-- One input object inside addInputObjectTypesToFileContent: skip empty
declarations, skip types not in the round's used set, skip already-written
types; otherwise push the header, process the fields, and either error
(zero survivors while used), pop the header again (unreachable branch kept
from the source), or close the block and mark the type written. -/
def processInputObject (prismaInputs : List InputType) (exIn : List String)
    (aliased : Bool) (localSnap : List String)
    (st : ResolverState) (remaining : List String) (input : InputType) :
    Except String (ResolverState × List String) :=
  if input.fields.length > 0 then
    if (localUsedNow aliased localSnap st).contains input.name then
      if st.written.contains input.name then .ok (st, remaining)
      else
        let st1 : ResolverState :=
          ⟨ st.fileContent ++ [ inputHeader input.name, "" ], st.written, st.used ⟩
        let r := input.fields.foldl (processInputField prismaInputs exIn aliased localSnap)
          (st1, remaining, 0)
        if r.2.2 = 0 then
          if (localUsedNow aliased localSnap r.1).contains input.name then
            .error (emptyInputMessage input.name)
          else
            .ok (⟨ r.1.fileContent.dropLast.dropLast, r.1.written, r.1.used ⟩, r.2.1)
        else
          .ok (⟨ r.1.fileContent ++ [ "\x7d", "" ], setAdd r.1.written input.name, r.1.used ⟩,
            r.2.1)
    else .ok (st, remaining)
  else .ok (st, remaining)

/-- addInputObjectTypesToFileContent: fold over the catalogue with a fresh
`remaining` set. -/
def addInputObjectTypes (prismaInputs : List InputType) (exIn : List String)
    (inputObjectTypes : List InputType) (aliased : Bool) (localSnap : List String)
    (st : ResolverState) : Except String (ResolverState × List String) :=
  inputObjectTypes.foldlM
    (fun acc input => processInputObject prismaInputs exIn aliased localSnap acc.1 acc.2 input)
    (st, ([] : List String))

/-- The iteration-bound error of the fixed-point loop. -/
def tooManyIterationsMessage : String := "Too many iterations"

/-- The do/while fixed-point loop of getInputTypes.  The source counts
rounds with `index` and throws once `index > 5`.  The embedding adds a
structural `fuel` argument so that the recursion is primitive; callers
keep `fuel + index = 6`, which makes the `fuel = 0` fallback unreachable
(the `index > 5` test fires first). -/
def resolveInputTypesLoop (prismaInputs : List InputType) (exIn : List String)
    (inputObjectTypes : List InputType) :
    Nat → Nat → ResolverState → List String → Bool → Except String ResolverState
  | fuel, index, st, localSnap, aliased =>
    if index > 5 then .error tooManyIterationsMessage
    else
      match fuel with
      | 0 => .error tooManyIterationsMessage
      | fuel' + 1 =>
        match addInputObjectTypes prismaInputs exIn inputObjectTypes aliased localSnap st with
        | .error e => .error e
        | .ok (st1, remaining) =>
          let difference := remaining.filter (fun item => ! st1.used.contains item)
          let st2 : ResolverState := ⟨ st1.fileContent, st1.written, st1.used ++ difference ⟩
          if difference.length > 0 then
            resolveInputTypesLoop prismaInputs exIn inputObjectTypes fuel' (index + 1)
              st2 remaining false
          else .ok st2

/-- Enum value extraction: `'data' in item ? item.data : item.values`,
with a pair list contributing its keys and an absent/non-array value
contributing nothing. -/
def extractEnumValues (e : SchemaEnum) : List String :=
  match e.dataField with
  | some pairs => pairs.map (fun p => p.key)
  | none =>
    match e.values with
    | some vs => vs
    | none => []

/-- addEnumTypesToFileContent, one enum: skip enums not in the used set or
already written; otherwise mark written and emit the block, dropping
excluded values. -/
def addEnumType (exIn : List String) (st : ResolverState) (e : SchemaEnum) : ResolverState :=
  if ! st.used.contains e.name then st
  else if st.written.contains e.name then st
  else
    let vals := (extractEnumValues e).filter (fun v => ! exIn.contains v)
    ⟨ st.fileContent ++ [ enumHeader e.name ] ++ vals ++ [ "\x7d", "" ],
      setAdd st.written e.name, st.used ⟩

/-- The fixed prelude of the shared artifact. -/
def inputTypesPrelude : List String :=
  [ "scalar Json", "scalar DateTime", "type BatchPayload \x7b", "count: Int!", "\x7d", "" ]

/-- getInputTypes up to the formatting boundary: the final `fileContent`
line list.  `usedModels` is a parameter of the source used only by a
commented-out block; `excludeOutputFields` is likewise read but unused. -/
def getInputTypesLines (schema : Schema) (usedInputTypes : List String)
    (usedModels : List String) (options : GeneratorOptions) : Except String (List String) :=
  let excludeInputFields := options.excludeInputFields.getD []
  let enums := schema.enumTypesPrisma ++ schema.enumTypesModel
  let inputObjectTypes := schema.inputObjectTypesPrisma ++ schema.inputObjectTypesModel
  let st0 : ResolverState := ⟨ inputTypesPrelude, [], usedInputTypes ⟩
  match resolveInputTypesLoop schema.inputObjectTypesPrisma excludeInputFields
      inputObjectTypes 6 0 st0 usedInputTypes true with
  | .error e => .error e
  | .ok st1 => .ok (enums.foldl (addEnumType excludeInputFields) st1).fileContent

/-- Join a list of lines with newlines, as `Array.join("\n")`. -/
def joinNL : List String → String
  | [] => ""
  | [ x ] => x
  | x :: rest => x ++ ("\n") ++ joinNL rest

/-- Join with `",\n"`, as `Array.join(',\n')`. -/
def joinCommaNL : List String → String
  | [] => ""
  | [ x ] => x
  | x :: rest => x ++ (",\n") ++ joinCommaNL rest

/-- Lower-case the first character, `modelName[0].toLowerCase() + slice(1)`. -/
def lowerFirst (s : String) : String :=
  match s.data with
  | [] => s
  | c :: rest => String.mk (c.toLower :: rest)

/-- `model.name.toUpperCase()`. -/
def upperStr (s : String) : String := String.mk (s.data.map Char.toUpper)

/-- singularName: singularize only names that are already their own plural,
then lower-case the first character. -/
def singularName (pluralizeFn singularFn : String → String) (modelName : String) : String :=
  let m := if pluralizeFn modelName == modelName then singularFn modelName else modelName
  lowerFirst m

/-- pluralName = pluralize(singularName(name)). -/
def pluralName (pluralizeFn singularFn : String → String) (modelName : String) : String :=
  pluralizeFn (singularName pluralizeFn singularFn modelName)

/-- Does the name start with a single underscore (aggregate marker)? -/
def startsWithUnderscore (s : String) : Bool :=
  match s.data with
  | c :: _ => c = '_'
  | [] => false

/-- One output field of getType: drop excluded or underscore-prefixed
fields; otherwise render the field with its argument list, adding each
argument's resolved type to the used set. -/
def outputFieldEntry (exOut : List String) (acc : List String × List String)
    (field : SchemaField) : List String × List String :=
  if exOut.contains field.name then acc
  else if startsWithUnderscore field.name then acc
  else
    let ar := field.args.foldl
      (fun (a : String × List String) arg =>
        let it := getInputType arg
        (a.1 ++ arg.name ++ (": ")
            ++ (if it.isList then ("[") ++ it.type ++ ("]") else it.type) ++ (" "),
          setAdd a.2 it.type))
      (("", acc.2))
    let argPart := if field.args.length > 0 then ("(") ++ ar.1 ++ (")") else ("")
    let tail :=
      if field.outputType.isList then ("[") ++ field.outputType.type ++ ("!]!")
      else field.outputType.type ++ (if ! field.isNullable then ("!") else (""))
    (acc.1 ++ [ field.name ++ argPart ++ (": ") ++ tail ++ (" ") ], ar.2)

/-- getType: the entity output type block, plus the grown used set. -/
def getType (modelOutputType : OutputType) (excludeFields : List String)
    (used : List String) : String × List String :=
  let r := modelOutputType.fields.foldl (outputFieldEntry excludeFields) ([], used)
  (("type ") ++ modelOutputType.name ++ (" \x7b\n        ") ++ joinNL r.1 ++ ("\n    \x7d"), r.2)

/-- Look up the argument list of the Query field `<query><ModelName>`. -/
def lookupQueryArgs (schema : Schema) (fieldName : String) : Option (List SchemaArg) :=
  (schema.outputObjectTypesPrisma.find? (fun t => t.name == "Query")).bind
    (fun q => (q.fields.find? (fun f => f.name == fieldName)).map (fun f => f.args))

/-- getQueryInputArguments: error when the Query table has no entry for the
operation, otherwise render `name: Type` lines and record each resolved
argument type as used. -/
def getQueryInputArguments (modelName query : String) (schema : Schema)
    (used : List String) : Except String (String × List String) :=
  match lookupQueryArgs schema (query ++ modelName) with
  | none => .error (("No args for: ") ++ modelName)
  | some args =>
    let r := args.foldl
      (fun (a : List String × List String) arg =>
        let it := getInputType arg
        let t1 := if arg.isRequired then it.type ++ ("!") else it.type
        let t2 := if it.isList then ("[") ++ t1 ++ ("]") else t1
        (a.1 ++ [ arg.name ++ (": ") ++ t2 ], setAdd a.2 it.type))
      ([], used)
    .ok (joinNL r.1, r.2)

/-- The `where` argument of `findMany<Model>`, used by the count branch. -/
def lookupCountWhereArg (schema : Schema) (modelName : String) : Option SchemaArg :=
  (schema.outputObjectTypesPrisma.find? (fun t => t.name == "Query")).bind
    (fun q => (q.fields.find? (fun f => f.name == ("findMany") ++ modelName)).bind
      (fun f => f.args.find? (fun a => a.name == "where")))

/-- One entry of the queriesTypeDefs switch in getTypeDef. -/
def queryTypeDefEntry (pluralizeFn singularFn : String → String) (model : Model)
    (schema : Schema) (used : List String) (query : String) :
    Except String (String × List String) :=
  if query == "findFirst" then
    match getQueryInputArguments model.name query schema used with
    | .error e => .error e
    | .ok (inputArgs, used1) =>
      .ok (singularName pluralizeFn singularFn model.name ++ (" (") ++ inputArgs
        ++ ("): ") ++ model.name ++ (" "), used1)
  else if query == "findMany" then
    match getQueryInputArguments model.name query schema used with
    | .error e => .error e
    | .ok (inputArgs, used1) =>
      .ok (pluralName pluralizeFn singularFn model.name ++ ("(") ++ inputArgs
        ++ ("): [") ++ model.name ++ ("!]!"), used1)
  else if query == "count" then
    match lookupCountWhereArg schema model.name with
    | some whereArg =>
      let whereType := getInputType whereArg
      .ok (pluralName pluralizeFn singularFn model.name ++ ("Count(where: ")
        ++ whereType.type ++ ("): Int!"), setAdd used whereType.type)
    | none => .ok (pluralName pluralizeFn singularFn model.name ++ ("Count: Int!"), used)
  else .error (("Unknown query: ") ++ query)

/-- The non-null assertion `schema.outputObjectTypes.model.find(...)!` of
getTypeDef crashes at runtime when the model output type is missing; the
embedding surfaces that as an error. -/
def missingModelOutputTypeMessage (name : String) : String :=
  ("No model output type: ") ++ name

/-- The text assembled by getTypeDef around the formatted schema. -/
def typeDefWrapper (typeStr : String) (qdefs : List String) : String :=
  ("import gql from \x27graphql-tag\x27;\n\n    export default gql\x60\n        ")
    ++ typeStr ++ ("\n\n        type Query \x7b ") ++ joinNL qdefs ++ (" \x7d")
    ++ ("\n    \x60")

/-- getTypeDef: entity output type plus query signatures, threading the
used set through every query entry. -/
def getTypeDef (pluralizeFn singularFn : String → String) (model : Model)
    (schema : Schema) (used : List String) (options : GeneratorOptions) :
    Except String (String × List String) :=
  match schema.outputObjectTypesModel.find? (fun m => m.name == model.name) with
  | none => .error (missingModelOutputTypeMessage model.name)
  | some outType =>
    let tr := getType outType (options.excludeOutputFields.getD []) used
    match (options.queries.getD allQueries).foldlM
        (fun (a : List String × List String) q =>
          match queryTypeDefEntry pluralizeFn singularFn model schema a.2 q with
          | .error e => (.error e : Except String (List String × List String))
          | .ok su => .ok (a.1 ++ [ su.1 ], su.2))
        (([] : List String), tr.2) with
    | .error e => .error e
    | .ok r => .ok (typeDefWrapper tr.1 r.1, r.2)

/-- One line of the per-model field metadata table emitted into resolvers. -/
def fieldMetadataEntry (field : ModelField) : String :=
  ("  ") ++ field.name ++ (": \x7b kind: \x27") ++ field.kind ++ ("\x27, type: \x27")
    ++ field.type ++ ("\x27, isList: ")
    ++ (if field.isList then ("true") else ("false")) ++ (" \x7d")

/-- The `const <NAME>_FIELDS = {...};` constant. -/
def fieldsConstant (model : Model) : String :=
  ("const ") ++ upperStr model.name ++ ("_FIELDS = \x7b\n")
    ++ joinCommaNL (model.fields.map fieldMetadataEntry) ++ ("\n\x7d;")

/-- The literal buildPrismaSelect/buildNestedSelect utility text shipped in
every generated resolvers module (no interpolations). -/
def buildPrismaSelectUtilText : String :=
  ("\nfunction buildPrismaSelect(info: any, modelFields: any): any \x7b\n")
    ++ ("  if (!info?.fieldNodes?.[0]?.selectionSet) \x7b\n    return \x7b\x7d;\n  \x7d\n\n")
    ++ ("  const selections = info.fieldNodes[0].selectionSet.selections;\n")
    ++ ("  const select: any = \x7b\x7d;\n\n")
    ++ ("  for (const selection of selections) \x7b\n")
    ++ ("    if (selection.kind !== \x27Field\x27) continue;\n\n")
    ++ ("    const fieldName = selection.name.value;\n\n")
    ++ ("    // Skip GraphQL meta fields\n")
    ++ ("    if (fieldName.startsWith(\x27__\x27)) continue;\n\n")
    ++ ("    const fieldInfo = modelFields[fieldName];\n\n")
    ++ ("    if (!fieldInfo) continue;\n\n")
    ++ ("    if (fieldInfo.kind === \x27object\x27) \x7b\n")
    ++ ("      // Relation field - add to select with nested selection\n")
    ++ ("      if (selection.selectionSet) \x7b\n")
    ++ ("        select[fieldName] = buildNestedSelect(selection.selectionSet);\n")
    ++ ("      \x7d else \x7b\n        select[fieldName] = true;\n      \x7d\n")
    ++ ("    \x7d else \x7b\n")
    ++ ("      // Scalar/enum field - add to select\n")
    ++ ("      select[fieldName] = true;\n")
    ++ ("    \x7d\n  \x7d\n\n")
    ++ ("  return Object.keys(select).length > 0 ? \x7b select \x7d : \x7b\x7d;\n\x7d\n\n")
    ++ ("function buildNestedSelect(selectionSet: any): any \x7b\n")
    ++ ("  const select: any = \x7b\x7d;\n\n")
    ++ ("  for (const selection of selectionSet.selections) \x7b\n")
    ++ ("    if (selection.kind !== \x27Field\x27) continue;\n")
    ++ ("    const fieldName = selection.name.value;\n\n")
    ++ ("    // Skip GraphQL meta fields\n")
    ++ ("    if (fieldName.startsWith(\x27__\x27)) continue;\n\n")
    ++ ("    // If this field has nested selections, it\x27s a relation - recurse\n")
    ++ ("    if (selection.selectionSet) \x7b\n")
    ++ ("      select[fieldName] = buildNestedSelect(selection.selectionSet);\n")
    ++ ("    \x7d else \x7b\n")
    ++ ("      // Scalar field\n")
    ++ ("      select[fieldName] = true;\n")
    ++ ("    \x7d\n  \x7d\n\n")
    ++ ("  return Object.keys(select).length > 0 ? \x7b select \x7d : true;\n\x7d")

/-- One resolver of the getResolvers switch. -/
def resolverEntry (pluralizeFn singularFn : String → String) (model : Model)
    (query : String) : Except String String :=
  if query == "findFirst" then
    .ok (singularName pluralizeFn singularFn model.name
      ++ (": (_parent: any, args: any, context: any, info: any) => \x7b\n                    const prismaSelect = buildPrismaSelect(info, ")
      ++ upperStr model.name
      ++ ("_FIELDS);\n                    return context.prisma.") ++ model.name
      ++ (".findFirst(\x7b ...args, ...prismaSelect \x7d)\n                \x7d"))
  else if query == "findMany" then
    .ok (pluralName pluralizeFn singularFn model.name
      ++ (": (_parent: any, args: any, context: any, info: any) => \x7b\n                    const prismaSelect = buildPrismaSelect(info, ")
      ++ upperStr model.name
      ++ ("_FIELDS);\n                    return context.prisma.") ++ model.name
      ++ (".findMany(\x7b ...args, ...prismaSelect \x7d)\n                \x7d"))
  else if query == "count" then
    .ok (pluralName pluralizeFn singularFn model.name
      ++ ("Count: (_parent: any, args: any, context: any) => \x7b\n                    return context.prisma.")
      ++ model.name
      ++ (".count(\x7b where: args.where \x7d)\n                \x7d"))
  else .error (("Unknown query: ") ++ query)

/-- getResolvers: field metadata constant, the select utility, and one
resolver per enabled query. -/
def getResolvers (pluralizeFn singularFn : String → String) (model : Model)
    (options : GeneratorOptions) : Except String String :=
  match (options.queries.getD allQueries).mapM (resolverEntry pluralizeFn singularFn model) with
  | .error e => .error e
  | .ok entries =>
    .ok (fieldsConstant model ++ ("\n\n") ++ buildPrismaSelectUtilText
      ++ ("\n\nconst resolvers = \x7b\n                Query: \x7b\n                    ")
      ++ joinCommaNL entries
      ++ ("\n                \x7d\n            \x7d\n\n            export default resolvers;"))

/-- Per-model generated artifacts. -/
structure SingleModelOutput where
  modelName : String
  typeDef : String
  resolvers : String
deriving DecidableEq

/-- The aggregate generate output (index file omitted: its constants file
is not part of the sources and no claim concerns it). -/
structure GenerateOutput where
  models : List SingleModelOutput
  inputTypes : List String
deriving DecidableEq

/-- The entity filter of generate: optional allow-list, then deny-list. -/
def includedModels (doc : Document) (options : GeneratorOptions) : List Model :=
  let ms :=
    match options.models with
    | some allow => doc.models.filter (fun m : Model => allow.contains m.name)
    | none => doc.models
  ms.filter (fun m : Model =>
    match options.excludeModels with
    | some deny => ! deny.contains m.name
    | none => true)

/-- generate: process every included model in catalogue order, threading
the shared used-type set, then resolve the shared input types once. -/
def generate (doc : Document) (options : GeneratorOptions)
    (pluralizeFn singularFn : String → String) : Except String GenerateOutput :=
  match (includedModels doc options).foldlM
      (fun (a : List SingleModelOutput × List String) model =>
        match getTypeDef pluralizeFn singularFn model doc.schema a.2 options with
        | .error e => (.error e : Except String (List SingleModelOutput × List String))
        | .ok td =>
          match getResolvers pluralizeFn singularFn model options with
          | .error e => .error e
          | .ok resolvers =>
            .ok (a.1 ++ [ (⟨ model.name, td.1, resolvers ⟩ : SingleModelOutput) ], td.2))
      (([] : List SingleModelOutput), ([] : List String)) with
  | .error e => .error e
  | .ok r =>
    match getInputTypesLines doc.schema r.2 (r.1.map (fun o : SingleModelOutput => o.modelName)) options with
    | .error e => .error e
    | .ok lines => .ok ⟨ r.1, lines ⟩

end PFG

namespace PFG

/-! ## The generated runtime selection translator -/

mutual
/-- A GraphQL selection node as read by the generated translator: a
non-field selection (fragment), a field without a selection set, or a
field with one. -/
inductive SelNode where
  | other
  | leafField (name : String)
  | objField (name : String) (sub : SelSet)

/-- A selection set: the list of selections. -/
inductive SelSet where
  | nil
  | cons (head : SelNode) (tail : SelSet)
end

mutual
/-- A value stored under a key of the produced select object: the boolean
marker or a nested select wrapper. -/
inductive SelectValue where
  | leaf (b : Bool)
  | sel (entries : EntryList)

/-- The ordered key/value entries of a produced select object. -/
inductive EntryList where
  | nil
  | cons (key : String) (value : SelectValue) (tail : EntryList)
end

/-- `fieldName.startsWith('__')`. -/
def startsWithUU (s : String) : Bool :=
  match s.data with
  | c1 :: c2 :: _ => c1 = '_' && c2 = '_'
  | _ => false

/-- Does the object have the key? -/
def entriesHasKey : EntryList → String → Bool
  | .nil, _ => false
  | .cons k _ rest, key => k == key || entriesHasKey rest key

/-- Overwrite the value at an existing key, keeping its position. -/
def entriesSetKey : EntryList → String → SelectValue → EntryList
  | .nil, _, _ => .nil
  | .cons k v rest, key, value =>
    if k == key then .cons k value (entriesSetKey rest key value)
    else .cons k v (entriesSetKey rest key value)

/-- Append a fresh key at the end. -/
def entriesAppend : EntryList → String → SelectValue → EntryList
  | .nil, k, v => .cons k v .nil
  | .cons k0 v0 rest, k, v => .cons k0 v0 (entriesAppend rest k v)

/-- JavaScript `select[fieldName] = v`: overwrite in place if present,
else append in insertion order. -/
def insertEntry (l : EntryList) (key : String) (value : SelectValue) : EntryList :=
  if entriesHasKey l key then entriesSetKey l key value else entriesAppend l key value

/-- `Object.keys(select).length > 0` negated. -/
def entriesIsEmpty : EntryList → Bool
  | .nil => true
  | .cons _ _ _ => false

/-- Key lookup in the produced object. -/
def entriesLookup : EntryList → String → Option SelectValue
  | .nil, _ => none
  | .cons k v rest, key => if k == key then some v else entriesLookup rest key

/-- The loop body of buildNestedSelect, with the recursive call on a
nested selection set inlined (the source's mutual pair of the loop and the
wrapper, flattened into one structurally recursive function). -/
def bnsGo : SelSet → EntryList → EntryList
  | .nil, acc => acc
  | .cons .other rest, acc => bnsGo rest acc
  | .cons (.leafField name) rest, acc =>
    if startsWithUU name then bnsGo rest acc
    else bnsGo rest (insertEntry acc name (.leaf true))
  | .cons (.objField name sub) rest, acc =>
    if startsWithUU name then bnsGo rest acc
    else
      let entries := bnsGo sub .nil
      let v := if entriesIsEmpty entries then SelectValue.leaf true else .sel entries
      bnsGo rest (insertEntry acc name v)

/-- buildNestedSelect: translate a nested selection set; an empty
surviving set collapses to the boolean marker. -/
def buildNestedSelect (s : SelSet) : SelectValue :=
  let entries := bnsGo s .nil
  if entriesIsEmpty entries then .leaf true else .sel entries

/-- Field metadata as emitted into the `<NAME>_FIELDS` table. -/
structure FieldMeta where
  kind : String
  type : String
  isList : Bool
deriving DecidableEq

/-- `modelFields[fieldName]`. -/
def lookupMeta (modelFields : List (String × FieldMeta)) (name : String) : Option FieldMeta :=
  (modelFields.find? (fun p => p.1 == name)).map (fun p => p.2)

/-- The loop body of buildPrismaSelect: top level consults the metadata
table; unknown fields are skipped, object-kind fields with a selection set
recurse into buildNestedSelect, all other survivors are marked true. -/
def bpsGo (modelFields : List (String × FieldMeta)) : SelSet → EntryList → EntryList
  | .nil, acc => acc
  | .cons .other rest, acc => bpsGo modelFields rest acc
  | .cons (.leafField name) rest, acc =>
    if startsWithUU name then bpsGo modelFields rest acc
    else
      match lookupMeta modelFields name with
      | none => bpsGo modelFields rest acc
      | some _ => bpsGo modelFields rest (insertEntry acc name (.leaf true))
  | .cons (.objField name sub) rest, acc =>
    if startsWithUU name then bpsGo modelFields rest acc
    else
      match lookupMeta modelFields name with
      | none => bpsGo modelFields rest acc
      | some info =>
        if info.kind == "object" then
          bpsGo modelFields rest (insertEntry acc name (buildNestedSelect sub))
        else bpsGo modelFields rest (insertEntry acc name (.leaf true))

/-- buildPrismaSelect: `none` models the `{}` result (missing selection
set or zero surviving keys); `some entries` models `{ select }`. -/
def buildPrismaSelect (info : Option SelSet) (modelFields : List (String × FieldMeta)) :
    Option EntryList :=
  match info with
  | none => none
  | some sels =>
    let select := bpsGo modelFields sels .nil
    if entriesIsEmpty select then none else some select

end PFG

namespace PFG

/-! ## Concrete catalogues used by witnesses and counterexamples -/

/-- Reference to UserWhereInput. -/
def refUWI : InputTypeRef := ⟨ "UserWhereInput", "inputObjectTypes", false ⟩

/-- Reference to PostWhereInput. -/
def refPWI : InputTypeRef := ⟨ "PostWhereInput", "inputObjectTypes", false ⟩

/-- Reference to the Role enum. -/
def refRole : InputTypeRef := ⟨ "Role", "enumTypes", false ⟩

/-- Reference to the Int scalar. -/
def refInt : InputTypeRef := ⟨ "Int", "scalar", false ⟩

/-- UserWhereInput, referencing PostWhereInput and Role. -/
def uwiSample : InputType :=
  ⟨ "UserWhereInput", [ ⟨ "posts", false, [ refPWI ] ⟩, ⟨ "role", false, [ refRole ] ⟩ ] ⟩

/-- PostWhereInput, referencing back UserWhereInput (cycle). -/
def pwiSample : InputType := ⟨ "PostWhereInput", [ ⟨ "author", false, [ refUWI ] ⟩ ] ⟩

/-- The Role enum in the flat (Prisma 5) wire shape. -/
def roleEnumSample : SchemaEnum := ⟨ "Role", none, some [ "ADMIN", "USER" ] ⟩

/-- A catalogue whose input-type reference graph is cyclic. -/
def cycSchema : Schema :=
  ⟨ [ roleEnumSample ], [], [ uwiSample, pwiSample ], [],
    [ ⟨ "Query",
        [ ⟨ "findFirstUser", [ ⟨ "where", false, [ refUWI ] ⟩ ], ⟨ "User", false ⟩, true ⟩ ] ⟩ ],
    [ ⟨ "User", [ ⟨ "id", [], ⟨ "Int", false ⟩, false ⟩ ] ⟩ ] ⟩

/-- The cyclic catalogue's document. -/
def cycDoc : Document := ⟨ [ ⟨ "User", [ ⟨ "id", "scalar", "Int", false ⟩ ] ⟩ ], cycSchema ⟩

/-- Options enabling only findFirst. -/
def findFirstOpts : GeneratorOptions := ⟨ none, none, none, none, some [ "findFirst" ] ⟩

/-- Options enabling only count. -/
def countOnlyOpts : GeneratorOptions := ⟨ none, none, none, none, some [ "count" ] ⟩

/-- A naive pluralizer standing in for the external pluralize library. -/
def plSimple : String → String := fun s => s ++ "s"

/-- A naive singularizer standing in for the external pluralize library. -/
def sgSimple : String → String := fun s => s

/-- A catalogue containing an input type with an empty declared field list
that is referenced by a query argument. -/
def emptyFieldsSchema : Schema :=
  ⟨ [], [], [ ⟨ "Empty", [] ⟩ ], [],
    [ ⟨ "Query",
        [ ⟨ "findFirstUser",
            [ ⟨ "where", false, [ ⟨ "Empty", "inputObjectTypes", false ⟩ ] ⟩ ],
            ⟨ "User", false ⟩, true ⟩ ] ⟩ ],
    [ ⟨ "User", [ ⟨ "id", [], ⟨ "Int", false ⟩, false ⟩ ] ⟩ ] ⟩

/-- Document for the empty-declared-fields catalogue. -/
def emptyFieldsDoc : Document := ⟨ [ ⟨ "User", [] ⟩ ], emptyFieldsSchema ⟩

/-- A catalogue where the User output type has a relation field `posts`
carrying a filter argument; excluding `posts` from the outputs changes the
used-type seed. -/
def c4Schema : Schema :=
  ⟨ [], [], [ ⟨ "PostWhereInput", [ ⟨ "x", false, [ refInt ] ⟩ ] ⟩ ], [],
    [ ⟨ "Query", [ ⟨ "findFirstUser", [], ⟨ "User", false ⟩, true ⟩ ] ⟩ ],
    [ ⟨ "User",
        [ ⟨ "id", [], ⟨ "Int", false ⟩, false ⟩,
          ⟨ "posts", [ ⟨ "where", false, [ refPWI ] ⟩ ], ⟨ "Post", true ⟩, false ⟩ ] ⟩ ] ⟩

/-- Document for the output-exclusion interference catalogue. -/
def c4Doc : Document := ⟨ [ ⟨ "User", [] ⟩ ], c4Schema ⟩

/-- Options with no output exclusions. -/
def c4OptsA : GeneratorOptions := ⟨ none, none, none, none, some [ "findFirst" ] ⟩

/-- The same options except that the `posts` output field is excluded. -/
def c4OptsB : GeneratorOptions := ⟨ none, none, none, some [ "posts" ], some [ "findFirst" ] ⟩

/-- A pluralizer behaving like the pluralize library on User/Users. -/
def plColl : String → String := fun s =>
  if s == "Users" then "Users" else if s == "User" then "Users"
  else if s == "user" then "users" else s ++ "s"

/-- A singularizer behaving like the pluralize library on User/Users. -/
def sgColl : String → String := fun s => if s == "Users" then "User" else s

/-- Two entities whose derived singular/plural name pairs collide. -/
def collSchema : Schema :=
  ⟨ [], [], [], [],
    [ ⟨ "Query", [] ⟩ ],
    [ ⟨ "User", [ ⟨ "id", [], ⟨ "Int", false ⟩, false ⟩ ] ⟩,
      ⟨ "Users", [ ⟨ "id", [], ⟨ "Int", false ⟩, false ⟩ ] ⟩ ] ⟩

/-- Document with the colliding entity pair. -/
def collDoc : Document := ⟨ [ ⟨ "User", [] ⟩, ⟨ "Users", [] ⟩ ], collSchema ⟩

/-- Project the shared artifact line list out of a generate result. -/
def artifactOf (r : Except String GenerateOutput) : List String :=
  match r with
  | .ok o => o.inputTypes
  | .error _ => []

/-- The error component of an Except result, if any. -/
def errOf {α : Type} (r : Except String α) : Option String :=
  match r with
  | .ok _ => none
  | .error e => some e

end PFG

namespace PFG

/-- Decidable equality for Except results, used when evaluating the
embedding at concrete catalogues. -/
instance {ε α : Type} [DecidableEq ε] [DecidableEq α] : DecidableEq (Except ε α) := fun a b =>
  match a, b with
  | .ok x, .ok y =>
    if h : x = y then .isTrue (by rw [h]) else .isFalse (by intro hc; cases hc; exact h rfl)
  | .error x, .error y =>
    if h : x = y then .isTrue (by rw [h]) else .isFalse (by intro hc; cases hc; exact h rfl)
  | .ok _, .error _ => .isFalse (by intro hc; cases hc)
  | .error _, .ok _ => .isFalse (by intro hc; cases hc)

/-! ## C9: the two enum wire shapes are emitted identically -/

/-- C9: for every enum, the flat string-list wire shape and the key/value
pair-list wire shape with the same keys produce identical emitted enum
blocks (same values, same order, same exclusion filtering), in any
resolver state. -/
theorem enum_wire_shapes_emit_identically (exIn : List String) (st : ResolverState)
    (name : String) (vals : List String) (pairs : List EnumKV) (vs : Option (List String))
    (h : pairs.map (fun p => p.key) = vals) :
    addEnumType exIn st ⟨ name, none, some vals ⟩ = addEnumType exIn st ⟨ name, some pairs, vs ⟩ := by
  simp only [addEnumType, extractEnumValues, h]

/-- Witness for C9 at the concrete Role enum in both wire shapes. -/
theorem enum_wire_shapes_emit_identically_witness :
    addEnumType [] ⟨ [], [], [ "Role" ] ⟩ ⟨ "Role", none, some [ "ADMIN", "USER" ] ⟩
      = addEnumType [] ⟨ [], [], [ "Role" ] ⟩
          ⟨ "Role", some [ ⟨ "ADMIN", "ADMIN" ⟩, ⟨ "USER", "USER" ⟩ ], none ⟩ :=
  enum_wire_shapes_emit_identically [] ⟨ [], [], [ "Role" ] ⟩ "Role" [ "ADMIN", "USER" ]
    [ ⟨ "ADMIN", "ADMIN" ⟩, ⟨ "USER", "USER" ⟩ ] none (by decide)

/-! ## C5: the count operation keeps only the where argument -/

/-- A catalogue declaring where/orderBy/take/skip for findManyUser. -/
def c5Schema : Schema :=
  ⟨ [], [], [ uwiSample, pwiSample ], [],
    [ ⟨ "Query",
        [ ⟨ "findManyUser",
            [ ⟨ "where", false, [ refUWI ] ⟩,
              ⟨ "orderBy", false, [ ⟨ "UserOrderByInput", "inputObjectTypes", true ⟩ ] ⟩,
              ⟨ "take", false, [ refInt ] ⟩,
              ⟨ "skip", false, [ refInt ] ⟩ ],
            ⟨ "User", true ⟩, false ⟩ ] ⟩ ],
    [ ⟨ "User", [ ⟨ "id", [], ⟨ "Int", false ⟩, false ⟩ ] ⟩ ] ⟩

/-- C5: the generated count query signature carries at most the single
where argument (typed as the findMany where-input), the signature depends
only on the where argument even when the catalogue declares further
arguments, and the count handler forwards only args.where. -/
theorem count_operation_where_only (pluralizeFn singularFn : String → String)
    (model : Model) (schema schema2 : Schema) (used : List String) :
    (∀ whereArg, lookupCountWhereArg schema model.name = some whereArg →
      queryTypeDefEntry pluralizeFn singularFn model schema used "count"
        = .ok (pluralName pluralizeFn singularFn model.name ++ ("Count(where: ")
            ++ (getInputType whereArg).type ++ ("): Int!"),
          setAdd used (getInputType whereArg).type))
    ∧ (lookupCountWhereArg schema model.name = none →
      queryTypeDefEntry pluralizeFn singularFn model schema used "count"
        = .ok (pluralName pluralizeFn singularFn model.name ++ ("Count: Int!"), used))
    ∧ (lookupCountWhereArg schema model.name = lookupCountWhereArg schema2 model.name →
      queryTypeDefEntry pluralizeFn singularFn model schema used "count"
        = queryTypeDefEntry pluralizeFn singularFn model schema2 used "count")
    ∧ (resolverEntry pluralizeFn singularFn model "count"
        = .ok (pluralName pluralizeFn singularFn model.name
          ++ ("Count: (_parent: any, args: any, context: any) => \x7b\n                    return context.prisma.")
          ++ model.name ++ (".count(\x7b where: args.where \x7d)\n                \x7d"))) := by
  refine ⟨ fun whereArg h => ?_, fun h => ?_, fun h => ?_, ?_ ⟩
  · simp [queryTypeDefEntry, h]
  · simp [queryTypeDefEntry, h]
  · simp only [queryTypeDefEntry, beq_self_eq_true, if_true,
      show (("count" == "findFirst")) = false from rfl,
      show (("count" == "findMany")) = false from rfl, Bool.false_eq_true, if_false]
    rw [h]
  · simp [resolverEntry]

/-- Witness for C5: the concrete count signature for User against a
catalogue declaring where, orderBy, take and skip. -/
theorem count_operation_where_only_witness :
    queryTypeDefEntry plSimple sgSimple ⟨ "User", [] ⟩ c5Schema [] "count"
      = .ok (pluralName plSimple sgSimple "User" ++ ("Count(where: ")
          ++ (getInputType ⟨ "where", false, [ refUWI ] ⟩).type ++ ("): Int!"),
        setAdd [] (getInputType ⟨ "where", false, [ refUWI ] ⟩).type) :=
  (count_operation_where_only plSimple sgSimple ⟨ "User", [] ⟩ c5Schema c5Schema []).1
    ⟨ "where", false, [ refUWI ] ⟩ (by decide)

/-! ## C6: behavior on a missing Query operation entry -/

/-- C6 (amended): a missing Query table entry aborts generation with an
error naming the entity for findFirst and findMany; for count, a missing
findMany entry does not abort but produces an argument-less count
signature. -/
theorem missing_operation_entry (pluralizeFn singularFn : String → String)
    (model : Model) (schema : Schema) (used : List String) (query : String) :
    ((query = "findFirst" ∨ query = "findMany") →
      lookupQueryArgs schema (query ++ model.name) = none →
      queryTypeDefEntry pluralizeFn singularFn model schema used query
        = .error (("No args for: ") ++ model.name))
    ∧ (lookupCountWhereArg schema model.name = none →
      queryTypeDefEntry pluralizeFn singularFn model schema used "count"
        = .ok (pluralName pluralizeFn singularFn model.name ++ ("Count: Int!"), used)) := by
  constructor
  · rintro (rfl | rfl) hnone
    · simp [queryTypeDefEntry, getQueryInputArguments, hnone]
    · simp [queryTypeDefEntry, getQueryInputArguments, hnone]
  · intro h
    simp [queryTypeDefEntry, h]

/-- Witness for C6 (amended): findFirst with no Query entry errors with
the entity name; count with no findMany entry succeeds degraded. -/
theorem missing_operation_entry_witness :
    queryTypeDefEntry plSimple sgSimple ⟨ "Ghost", [] ⟩ cycSchema [] "findFirst"
      = .error (("No args for: ") ++ ("Ghost"))
    ∧ queryTypeDefEntry plSimple sgSimple ⟨ "User", [] ⟩ cycSchema [] "count"
      = .ok (pluralName plSimple sgSimple "User" ++ ("Count: Int!"), []) := by
  constructor
  · exact (missing_operation_entry plSimple sgSimple ⟨ "Ghost", [] ⟩ cycSchema [] "findFirst").1
      (Or.inl rfl) (by decide)
  · exact (missing_operation_entry plSimple sgSimple ⟨ "User", [] ⟩ cycSchema [] "count").2
      (by decide)

/-- Counterexample for C6 as stated: for the count kind, a catalogue with
no findManyUser Query entry does not abort generation — the whole run
succeeds, emitting an argument-less count query. -/
theorem count_missing_entry_not_fatal_cex :
    lookupCountWhereArg cycSchema "User" = none
    ∧ lookupQueryArgs cycSchema (("count") ++ ("User")) = none
    ∧ (generate cycDoc countOnlyOpts plSimple sgSimple).isOk = true := by
  decide

end PFG

namespace PFG

/-! ## C3: the fixed-point loop is bounded and repeats on discovery -/

/-- C3: the resolver loop throws the fatal Too many iterations error as
soon as the round index exceeds 5 (that is, on what would be the seventh
round); otherwise one more round runs, and the loop either returns
normally when the round discovered no type name outside the used set, or
repeats with the merged used set and the incremented index. -/
theorem resolver_loop_bound (prismaInputs inputs : List InputType) (exIn : List String)
    (fuel index : Nat) (st : ResolverState) (localSnap : List String) (aliased : Bool) :
    (5 < index →
      resolveInputTypesLoop prismaInputs exIn inputs fuel index st localSnap aliased
        = .error tooManyIterationsMessage)
    ∧ (∀ st1 remaining diff, index ≤ 5 →
        addInputObjectTypes prismaInputs exIn inputs aliased localSnap st = .ok (st1, remaining) →
        diff = remaining.filter (fun item => ! st1.used.contains item) →
        ((diff = [] →
          resolveInputTypesLoop prismaInputs exIn inputs (fuel + 1) index st localSnap aliased
            = .ok ⟨ st1.fileContent, st1.written, st1.used ++ diff ⟩)
        ∧ (diff ≠ [] →
          resolveInputTypesLoop prismaInputs exIn inputs (fuel + 1) index st localSnap aliased
            = resolveInputTypesLoop prismaInputs exIn inputs fuel (index + 1)
                ⟨ st1.fileContent, st1.written, st1.used ++ diff ⟩ remaining false))) := by
  constructor
  · intro h
    rw [resolveInputTypesLoop.eq_def]
    simp [h]
  · intro st1 remaining diff hle hok hdiff
    have hnot : ¬ index > 5 := by omega
    constructor
    · intro hnil
      rw [resolveInputTypesLoop.eq_def]
      simp only [if_neg hnot, hok]
      rw [← hdiff]
      simp [hnil]
    · intro hne
      have hpos : 0 < diff.length := List.length_pos.2 hne
      rw [resolveInputTypesLoop.eq_def]
      simp only [if_neg hnot, hok]
      rw [← hdiff]
      simp only [if_pos hpos]

/-- Witness for C3: the loop errors when entered past the bound, and
returns normally on a round with no new discoveries. -/
theorem resolver_loop_bound_witness :
    resolveInputTypesLoop [] [] [] 0 6 ⟨ [], [], [] ⟩ [] true = .error tooManyIterationsMessage
    ∧ resolveInputTypesLoop [] [] [] 1 0 ⟨ [], [], [] ⟩ [] true
        = .ok ⟨ [], [], [] ++ [] ⟩ := by
  constructor
  · exact (resolver_loop_bound [] [] [] 0 6 ⟨ [], [], [] ⟩ [] true).1 (by omega)
  · exact ((resolver_loop_bound [] [] [] 0 0 ⟨ [], [], [] ⟩ [] true).2
      ⟨ [], [], [] ⟩ [] [] (by omega) (by rfl) (by rfl)).1 rfl

/-! ## C2: empty-after-exclusion input types -/

/-- A field that is dropped by the exclusion policy leaves the fold
accumulator untouched. -/
theorem processInputField_dropped (prismaInputs : List InputType) (exIn : List String)
    (aliased : Bool) (localSnap : List String) (acc : ResolverState × List String × Nat)
    (field : SchemaArg)
    (h : exIn.contains field.name = true ∨
      hasRequiredExcludedField prismaInputs exIn (getInputType field).type = true) :
    processInputField prismaInputs exIn aliased localSnap acc field = acc := by
  rcases h with h | h
  · simp only [processInputField]
    rw [if_pos h]
  · simp only [processInputField]
    by_cases hc : exIn.contains field.name = true
    · rw [if_pos hc]
    · rw [if_neg hc, if_pos h]

/-- If every field of the list is dropped, the field fold is the identity. -/
theorem foldl_processInputField_dropped (prismaInputs : List InputType) (exIn : List String)
    (aliased : Bool) (localSnap : List String) (fields : List SchemaArg) :
    ∀ acc : ResolverState × List String × Nat,
    (∀ f ∈ fields, exIn.contains f.name = true ∨
      hasRequiredExcludedField prismaInputs exIn (getInputType f).type = true) →
    fields.foldl (processInputField prismaInputs exIn aliased localSnap) acc = acc := by
  induction fields with
  | nil => intro acc _; rfl
  | cons f fs ih =>
    intro acc h
    rw [List.foldl_cons,
      processInputField_dropped prismaInputs exIn aliased localSnap acc f (h f (by simp))]
    exact ih acc (fun g hg => h g (by simp [hg]))

/-- C2 (amended): an input type declaring at least one field, all of whose
fields are dropped by the exclusion policy, aborts the resolver with the
error naming the type whenever the type is in the round's used set; a type
outside the round's used set is skipped silently.  (A used type with an
empty declared field list is also skipped silently — see the
counterexample.) -/
theorem empty_after_exclusion_behavior (prismaInputs : List InputType) (exIn : List String)
    (aliased : Bool) (localSnap : List String) (st : ResolverState)
    (remaining : List String) (input : InputType) :
    (input.fields ≠ [] →
      (∀ f ∈ input.fields, exIn.contains f.name = true ∨
        hasRequiredExcludedField prismaInputs exIn (getInputType f).type = true) →
      (localUsedNow aliased localSnap st).contains input.name = true →
      st.written.contains input.name = false →
      processInputObject prismaInputs exIn aliased localSnap st remaining input
        = .error (emptyInputMessage input.name))
    ∧ ((localUsedNow aliased localSnap st).contains input.name = false →
      processInputObject prismaInputs exIn aliased localSnap st remaining input
        = .ok (st, remaining)) := by
  constructor
  · intro hne hdrop hlu hw
    have hlen : input.fields.length > 0 := List.length_pos.2 hne
    have hfold := foldl_processInputField_dropped prismaInputs exIn aliased localSnap
      input.fields
      (⟨ st.fileContent ++ [ inputHeader input.name, "" ], st.written, st.used ⟩, remaining, 0)
      hdrop
    have hlu1 : (localUsedNow aliased localSnap
        (⟨ st.fileContent ++ [ inputHeader input.name, "" ], st.written, st.used ⟩ :
          ResolverState)).contains input.name = true := by
      cases aliased <;> simpa [localUsedNow] using hlu
    simp only [processInputObject, if_pos hlen, hlu, if_true, hw, Bool.false_eq_true, if_false,
      hfold, hlu1]
  · intro hlu
    have hlu2 : input.name ∉ localUsedNow aliased localSnap st := by simpa using hlu
    by_cases hlen : input.fields.length > 0
    · simp [processInputObject, hlen, hlu2]
    · simp [processInputObject, hlen]

/-- Counterexample for C2 as stated: a referenced input type with an empty
declared field list has zero surviving fields, yet the resolver skips it
silently and the whole generation run succeeds instead of aborting. -/
theorem empty_declared_type_not_errored_cex :
    (⟨ "Empty", [] ⟩ : InputType) ∈ emptyFieldsSchema.inputObjectTypesPrisma
    ∧ getInputTypesLines emptyFieldsSchema [ "Empty" ] [] findFirstOpts = .ok inputTypesPrelude
    ∧ (generate emptyFieldsDoc findFirstOpts plSimple sgSimple).isOk = true := by
  decide

end PFG

namespace PFG

/-- Witness for C2 (amended): the all-fields-excluded UserWhereInput
aborts when used, and is skipped silently when not used. -/
theorem empty_after_exclusion_behavior_witness :
    processInputObject [ uwiSample, pwiSample ] [ "posts", "role", "author" ] true []
      ⟨ inputTypesPrelude, [], [ "UserWhereInput" ] ⟩ [] uwiSample
      = .error (emptyInputMessage ("UserWhereInput"))
    ∧ processInputObject [ uwiSample, pwiSample ] [ "posts", "role", "author" ] true []
      ⟨ inputTypesPrelude, [], [] ⟩ [] uwiSample
      = .ok (⟨ inputTypesPrelude, [], [] ⟩, []) := by
  constructor
  · exact (empty_after_exclusion_behavior [ uwiSample, pwiSample ]
      [ "posts", "role", "author" ] true [] ⟨ inputTypesPrelude, [], [ "UserWhereInput" ] ⟩
      [] uwiSample).1 (by decide) (by decide) (by decide) (by decide)
  · exact (empty_after_exclusion_behavior [ uwiSample, pwiSample ]
      [ "posts", "role", "author" ] true [] ⟨ inputTypesPrelude, [], [] ⟩
      [] uwiSample).2 (by decide)

/-! ## C4: separation of the two exclusion policies -/

/-- C4 (amended): the dependency resolver itself never reads
excludeOutputFields — for a fixed used-type seed the shared artifact is
the same for any two values of it (any two option records agreeing on
excludeInputFields); and a model's typeDef, including its output field
list, never depends on excludeInputFields (any two option records agreeing
on excludeOutputFields and queries give the same typeDef).  The
counterexample shows the claim as stated still fails end to end: the
used-type seed itself depends on excludeOutputFields. -/
theorem exclusion_policy_separation (schema : Schema) (used usedModels : List String)
    (pluralizeFn singularFn : String → String) (model : Model)
    (o1 o2 : GeneratorOptions) :
    (o1.excludeInputFields = o2.excludeInputFields →
      getInputTypesLines schema used usedModels o1 = getInputTypesLines schema used usedModels o2)
    ∧ (o1.excludeOutputFields = o2.excludeOutputFields → o1.queries = o2.queries →
      getTypeDef pluralizeFn singularFn model schema used o1
        = getTypeDef pluralizeFn singularFn model schema used o2) := by
  constructor
  · intro h
    simp only [getInputTypesLines, h]
  · intro h1 h2
    simp only [getTypeDef, h1, h2]

/-- Witness for C4 (amended): concrete option pairs differing only in the
other policy leave the resolver output and the typeDef unchanged. -/
theorem exclusion_policy_separation_witness :
    getInputTypesLines c4Schema [ "PostWhereInput" ] [] c4OptsA
      = getInputTypesLines c4Schema [ "PostWhereInput" ] [] c4OptsB
    ∧ getTypeDef plSimple sgSimple ⟨ "User", [] ⟩ c4Schema []
        ⟨ none, none, some [ "x" ], none, some [ "count" ] ⟩
      = getTypeDef plSimple sgSimple ⟨ "User", [] ⟩ c4Schema []
        ⟨ none, none, some [ "y" ], none, some [ "count" ] ⟩ := by
  constructor
  · exact (exclusion_policy_separation c4Schema [ "PostWhereInput" ] [] plSimple sgSimple
      ⟨ "User", [] ⟩ c4OptsA c4OptsB).1 rfl
  · exact (exclusion_policy_separation c4Schema [] [] plSimple sgSimple ⟨ "User", [] ⟩
      ⟨ none, none, some [ "x" ], none, some [ "count" ] ⟩
      ⟨ none, none, some [ "y" ], none, some [ "count" ] ⟩).2 rfl rfl

/-- Counterexample for C4 as stated: two runs differing only in
excludeOutputFields produce different shared inputTypes artifacts, because
excluding an output field that carries filter arguments removes its
argument types from the used-type seed. -/
theorem output_exclusion_interferes_cex :
    c4OptsA.models = c4OptsB.models
    ∧ c4OptsA.excludeModels = c4OptsB.excludeModels
    ∧ c4OptsA.excludeInputFields = c4OptsB.excludeInputFields
    ∧ c4OptsA.queries = c4OptsB.queries
    ∧ c4OptsA.excludeOutputFields ≠ c4OptsB.excludeOutputFields
    ∧ (generate c4Doc c4OptsA plSimple sgSimple).isOk = true
    ∧ (generate c4Doc c4OptsB plSimple sgSimple).isOk = true
    ∧ artifactOf (generate c4Doc c4OptsA plSimple sgSimple)
        ≠ artifactOf (generate c4Doc c4OptsB plSimple sgSimple) := by
  decide

end PFG

namespace PFG

/-! ## C7: no collision validation on derived names -/

/-- The query-entry used-set and error are independent of the naming
functions: only the rendered string mentions derived names. -/
theorem queryTypeDefEntry_snd_independent (pl1 sg1 pl2 sg2 : String → String)
    (model : Model) (schema : Schema) (used : List String) (query : String) :
    Except.map (fun su : String × List String => su.2)
        (queryTypeDefEntry pl1 sg1 model schema used query)
      = Except.map (fun su : String × List String => su.2)
        (queryTypeDefEntry pl2 sg2 model schema used query) := by
  simp only [queryTypeDefEntry]
  by_cases h1 : (query == "findFirst") = true
  · simp only [h1, if_true]
    cases getQueryInputArguments model.name query schema used <;> rfl
  · simp only [h1, Bool.false_eq_true, if_false]
    by_cases h2 : (query == "findMany") = true
    · simp only [h2, if_true]
      cases getQueryInputArguments model.name query schema used <;> rfl
    · simp only [h2, Bool.false_eq_true, if_false]
      by_cases h3 : (query == "count") = true
      · simp only [h3, if_true]
        cases lookupCountWhereArg schema model.name <;> rfl
      · simp only [h3, Bool.false_eq_true, if_false]

/-- The query-entry fold of getTypeDef has naming-independent errors and
used sets. -/
theorem typeDef_fold_snd_independent (pl1 sg1 pl2 sg2 : String → String)
    (model : Model) (schema : Schema) :
    ∀ (qs : List String) (a1 a2 : List String) (u : List String),
    Except.map (fun r : List String × List String => r.2)
        (qs.foldlM (fun (a : List String × List String) q =>
          match queryTypeDefEntry pl1 sg1 model schema a.2 q with
          | .error e => (.error e : Except String (List String × List String))
          | .ok su => .ok (a.1 ++ [ su.1 ], su.2)) (a1, u))
      = Except.map (fun r : List String × List String => r.2)
        (qs.foldlM (fun (a : List String × List String) q =>
          match queryTypeDefEntry pl2 sg2 model schema a.2 q with
          | .error e => (.error e : Except String (List String × List String))
          | .ok su => .ok (a.1 ++ [ su.1 ], su.2)) (a2, u)) := by
  intro qs
  induction qs with
  | nil => intro a1 a2 u; rfl
  | cons q qs ih =>
    intro a1 a2 u
    rw [List.foldlM_cons, List.foldlM_cons]
    have h := queryTypeDefEntry_snd_independent pl1 sg1 pl2 sg2 model schema u q
    cases h1 : queryTypeDefEntry pl1 sg1 model schema u q with
    | error e =>
      cases h2 : queryTypeDefEntry pl2 sg2 model schema u q with
      | error e2 =>
        rw [h1, h2] at h
        simp only [Except.map] at h
        cases h
        rfl
      | ok su2 =>
        rw [h1, h2] at h
        simp [Except.map] at h
    | ok su =>
      cases h2 : queryTypeDefEntry pl2 sg2 model schema u q with
      | error e2 =>
        rw [h1, h2] at h
        simp [Except.map] at h
      | ok su2 =>
        rw [h1, h2] at h
        simp only [Except.map, Except.ok.injEq] at h
        simp only [bind, Except.bind]
        rw [show su.2 = su2.2 from h]
        exact ih (a1 ++ [ su.1 ]) (a2 ++ [ su2.1 ]) su2.2

/-- getTypeDef has naming-independent errors and used sets. -/
theorem getTypeDef_snd_independent (pl1 sg1 pl2 sg2 : String → String)
    (model : Model) (schema : Schema) (used : List String) (options : GeneratorOptions) :
    Except.map (fun r : String × List String => r.2)
        (getTypeDef pl1 sg1 model schema used options)
      = Except.map (fun r : String × List String => r.2)
        (getTypeDef pl2 sg2 model schema used options) := by
  rcases hfind : schema.outputObjectTypesModel.find? (fun m => m.name == model.name)
    with _ | outType
  · simp only [getTypeDef, hfind]
  · simp only [getTypeDef, hfind]
    have h := typeDef_fold_snd_independent pl1 sg1 pl2 sg2 model schema
      (options.queries.getD allQueries) [] []
      (getType outType (options.excludeOutputFields.getD []) used).2
    cases h1 : (options.queries.getD allQueries).foldlM
        (fun (a : List String × List String) q =>
          match queryTypeDefEntry pl1 sg1 model schema a.2 q with
          | .error e => (.error e : Except String (List String × List String))
          | .ok su => .ok (a.1 ++ [ su.1 ], su.2))
        ([], (getType outType (options.excludeOutputFields.getD []) used).2) with
    | error e =>
      cases h2 : (options.queries.getD allQueries).foldlM
          (fun (a : List String × List String) q =>
            match queryTypeDefEntry pl2 sg2 model schema a.2 q with
            | .error e => (.error e : Except String (List String × List String))
            | .ok su => .ok (a.1 ++ [ su.1 ], su.2))
          ([], (getType outType (options.excludeOutputFields.getD []) used).2) with
      | error e2 =>
        rw [h1, h2] at h
        simp only [Except.map] at h
        cases h
        rfl
      | ok r2 =>
        rw [h1, h2] at h
        simp [Except.map] at h
    | ok r =>
      cases h2 : (options.queries.getD allQueries).foldlM
          (fun (a : List String × List String) q =>
            match queryTypeDefEntry pl2 sg2 model schema a.2 q with
            | .error e => (.error e : Except String (List String × List String))
            | .ok su => .ok (a.1 ++ [ su.1 ], su.2))
          ([], (getType outType (options.excludeOutputFields.getD []) used).2) with
      | error e2 =>
        rw [h1, h2] at h
        simp [Except.map] at h
      | ok r2 =>
        rw [h1, h2] at h
        simp only [Except.map, Except.ok.injEq] at h
        simp only [Except.map, Except.ok.injEq]
        exact h

/-- A resolver entry's error is independent of the naming functions. -/
theorem resolverEntry_err_independent (pl1 sg1 pl2 sg2 : String → String)
    (model : Model) (query : String) :
    errOf (resolverEntry pl1 sg1 model query) = errOf (resolverEntry pl2 sg2 model query) := by
  simp only [resolverEntry]
  by_cases h1 : (query == "findFirst") = true <;>
    by_cases h2 : (query == "findMany") = true <;>
      by_cases h3 : (query == "count") = true <;>
        simp [h1, h2, h3, errOf]

/-- Binding a pure continuation does not change the error component. -/
theorem errOf_bind_pure {α β : Type} (m : Except String α) (g : α → β) :
    errOf (m >>= fun x => pure (g x)) = errOf m := by
  cases m <;> rfl

/-- Binding a cons continuation does not change the error component. -/
theorem errOf_bind_cons {α : Type} (m : Except String (List α)) (x : α) :
    errOf (m >>= fun xs => pure (x :: xs)) = errOf m := by
  cases m <;> rfl

/-- The resolvers mapM has naming-independent errors. -/
theorem resolvers_mapM_err_independent (pl1 sg1 pl2 sg2 : String → String) (model : Model) :
    ∀ qs : List String,
    errOf (qs.mapM (resolverEntry pl1 sg1 model)) = errOf (qs.mapM (resolverEntry pl2 sg2 model)) := by
  intro qs
  induction qs with
  | nil => rfl
  | cons q qs ih =>
    have h := resolverEntry_err_independent pl1 sg1 pl2 sg2 model q
    cases h1 : resolverEntry pl1 sg1 model q with
    | error e =>
      cases h2 : resolverEntry pl2 sg2 model q with
      | error e2 =>
        rw [h1, h2] at h
        simp only [errOf] at h
        cases h
        have e1 : (q :: qs).mapM (resolverEntry pl1 sg1 model) = .error e := by
          rw [List.mapM_cons, h1]
          rfl
        have e2x : (q :: qs).mapM (resolverEntry pl2 sg2 model) = .error e := by
          rw [List.mapM_cons, h2]
          rfl
        rw [e1, e2x]
      | ok s2 =>
        rw [h1, h2] at h
        simp [errOf] at h
    | ok s =>
      cases h2 : resolverEntry pl2 sg2 model q with
      | error e2 =>
        rw [h1, h2] at h
        simp [errOf] at h
      | ok s2 =>
        have e1 : (q :: qs).mapM (resolverEntry pl1 sg1 model)
            = (qs.mapM (resolverEntry pl1 sg1 model)) >>= fun xs => pure (s :: xs) := by
          rw [List.mapM_cons, h1]
          rfl
        have e2 : (q :: qs).mapM (resolverEntry pl2 sg2 model)
            = (qs.mapM (resolverEntry pl2 sg2 model)) >>= fun xs => pure (s2 :: xs) := by
          rw [List.mapM_cons, h2]
          rfl
        rw [e1, e2, errOf_bind_cons, errOf_bind_cons]
        exact ih

/-- getResolvers has naming-independent errors. -/
theorem getResolvers_err_independent (pl1 sg1 pl2 sg2 : String → String)
    (model : Model) (options : GeneratorOptions) :
    errOf (getResolvers pl1 sg1 model options) = errOf (getResolvers pl2 sg2 model options) := by
  simp only [getResolvers]
  have h := resolvers_mapM_err_independent pl1 sg1 pl2 sg2 model (options.queries.getD allQueries)
  cases h1 : (options.queries.getD allQueries).mapM (resolverEntry pl1 sg1 model) with
  | error e =>
    cases h2 : (options.queries.getD allQueries).mapM (resolverEntry pl2 sg2 model) with
    | error e2 =>
      rw [h1, h2] at h
      simp only [errOf] at h
      cases h
      rfl
    | ok s2 =>
      rw [h1, h2] at h
      simp [errOf] at h
  | ok s =>
    cases h2 : (options.queries.getD allQueries).mapM (resolverEntry pl2 sg2 model) with
    | error e2 =>
      rw [h1, h2] at h
      simp [errOf] at h
    | ok s2 => rfl

/-- The per-model fold of generate has naming-independent errors and
used-type sets. -/
theorem generate_fold_snd_independent (pl1 sg1 pl2 sg2 : String → String)
    (schema : Schema) (options : GeneratorOptions) :
    ∀ (ms : List Model) (a1 a2 : List SingleModelOutput) (u : List String),
    Except.map (fun r : List SingleModelOutput × List String => r.2)
        (ms.foldlM (fun (a : List SingleModelOutput × List String) model =>
          match getTypeDef pl1 sg1 model schema a.2 options with
          | .error e => (.error e : Except String (List SingleModelOutput × List String))
          | .ok td =>
            match getResolvers pl1 sg1 model options with
            | .error e => .error e
            | .ok resolvers =>
              .ok (a.1 ++ [ (⟨ model.name, td.1, resolvers ⟩ : SingleModelOutput) ], td.2)) (a1, u))
      = Except.map (fun r : List SingleModelOutput × List String => r.2)
        (ms.foldlM (fun (a : List SingleModelOutput × List String) model =>
          match getTypeDef pl2 sg2 model schema a.2 options with
          | .error e => (.error e : Except String (List SingleModelOutput × List String))
          | .ok td =>
            match getResolvers pl2 sg2 model options with
            | .error e => .error e
            | .ok resolvers =>
              .ok (a.1 ++ [ (⟨ model.name, td.1, resolvers ⟩ : SingleModelOutput) ], td.2)) (a2, u)) := by
  intro ms
  induction ms with
  | nil => intro a1 a2 u; rfl
  | cons m ms ih =>
    intro a1 a2 u
    rw [List.foldlM_cons, List.foldlM_cons]
    have htd := getTypeDef_snd_independent pl1 sg1 pl2 sg2 m schema u options
    cases h1 : getTypeDef pl1 sg1 m schema u options with
    | error e =>
      cases h2 : getTypeDef pl2 sg2 m schema u options with
      | error e2 =>
        rw [h1, h2] at htd
        simp only [Except.map] at htd
        cases htd
        rfl
      | ok td2 =>
        rw [h1, h2] at htd
        simp [Except.map] at htd
    | ok td =>
      cases h2 : getTypeDef pl2 sg2 m schema u options with
      | error e2 =>
        rw [h1, h2] at htd
        simp [Except.map] at htd
      | ok td2 =>
        rw [h1, h2] at htd
        simp only [Except.map, Except.ok.injEq] at htd
        have hgr := getResolvers_err_independent pl1 sg1 pl2 sg2 m options
        cases hr1 : getResolvers pl1 sg1 m options with
        | error e =>
          cases hr2 : getResolvers pl2 sg2 m options with
          | error e2 =>
            rw [hr1, hr2] at hgr
            simp only [errOf] at hgr
            cases hgr
            rfl
          | ok s2 =>
            rw [hr1, hr2] at hgr
            simp [errOf] at hgr
        | ok s =>
          cases hr2 : getResolvers pl2 sg2 m options with
          | error e2 =>
            rw [hr1, hr2] at hgr
            simp [errOf] at hgr
          | ok s2 =>
            simp only [bind, Except.bind]
            rw [show td.2 = td2.2 from htd]
            exact ih (a1 ++ [ ⟨ m.name, td.1, s ⟩ ]) (a2 ++ [ ⟨ m.name, td2.1, s2 ⟩ ]) td2.2

/-- getInputTypesLines never reads the usedModels parameter. -/
theorem getInputTypesLines_usedModels_irrelevant (schema : Schema) (used : List String)
    (um1 um2 : List String) (options : GeneratorOptions) :
    getInputTypesLines schema used um1 options = getInputTypesLines schema used um2 options := rfl

/-- C7 (amended): generate contains no collision check on derived names —
whether it succeeds, and which error it reports, is entirely independent
of the pluralize/singularize functions and hence of the derived
singular/plural name pairs; a collision between two entities' derived
names cannot abort generation. -/
theorem generate_error_independent_of_naming (doc : Document) (options : GeneratorOptions)
    (pl1 sg1 pl2 sg2 : String → String) :
    errOf (generate doc options pl1 sg1) = errOf (generate doc options pl2 sg2) := by
  have h := generate_fold_snd_independent pl1 sg1 pl2 sg2 doc.schema options
    (includedModels doc options) [] [] []
  cases h1 : (includedModels doc options).foldlM
      (fun (a : List SingleModelOutput × List String) model =>
        match getTypeDef pl1 sg1 model doc.schema a.2 options with
        | .error e => (.error e : Except String (List SingleModelOutput × List String))
        | .ok td =>
          match getResolvers pl1 sg1 model options with
          | .error e => .error e
          | .ok resolvers =>
            .ok (a.1 ++ [ (⟨ model.name, td.1, resolvers ⟩ : SingleModelOutput) ], td.2))
      ([], []) with
  | error e =>
    cases h2 : (includedModels doc options).foldlM
        (fun (a : List SingleModelOutput × List String) model =>
          match getTypeDef pl2 sg2 model doc.schema a.2 options with
          | .error e => (.error e : Except String (List SingleModelOutput × List String))
          | .ok td =>
            match getResolvers pl2 sg2 model options with
            | .error e => .error e
            | .ok resolvers =>
              .ok (a.1 ++ [ (⟨ model.name, td.1, resolvers ⟩ : SingleModelOutput) ], td.2))
        ([], []) with
    | error e2 =>
      rw [h1, h2] at h
      simp only [Except.map] at h
      cases h
      simp only [generate, h1, h2]
    | ok r2 =>
      rw [h1, h2] at h
      simp [Except.map] at h
  | ok r =>
    cases h2 : (includedModels doc options).foldlM
        (fun (a : List SingleModelOutput × List String) model =>
          match getTypeDef pl2 sg2 model doc.schema a.2 options with
          | .error e => (.error e : Except String (List SingleModelOutput × List String))
          | .ok td =>
            match getResolvers pl2 sg2 model options with
            | .error e => .error e
            | .ok resolvers =>
              .ok (a.1 ++ [ (⟨ model.name, td.1, resolvers ⟩ : SingleModelOutput) ], td.2))
        ([], []) with
    | error e2 =>
      rw [h1, h2] at h
      simp [Except.map] at h
    | ok r2 =>
      rw [h1, h2] at h
      simp only [Except.map, Except.ok.injEq] at h
      simp only [generate, h1, h2]
      rw [show getInputTypesLines doc.schema r.2
            (r.1.map (fun o : SingleModelOutput => o.modelName)) options
          = getInputTypesLines doc.schema r2.2
            (r2.1.map (fun o : SingleModelOutput => o.modelName)) options from by
        rw [h]
        exact getInputTypesLines_usedModels_irrelevant doc.schema r2.2 _ _ options]
      cases getInputTypesLines doc.schema r2.2
          (r2.1.map (fun o : SingleModelOutput => o.modelName)) options <;> rfl

/-- Counterexample for C7 as stated: the entities User and Users derive
identical singular/plural name pairs, yet generation succeeds instead of
aborting before emission. -/
theorem naming_collision_not_fatal_cex :
    singularName plColl sgColl "User" = singularName plColl sgColl "Users"
    ∧ pluralName plColl sgColl "User" = pluralName plColl sgColl "Users"
    ∧ ("User" : String) ≠ ("Users" : String)
    ∧ (generate collDoc countOnlyOpts plColl sgColl).isOk = true := by
  decide

end PFG

namespace PFG

/-! ## Measures and predicates for the selection translator -/

/-- The nesting depth of the surviving part of a selection set: a kept
field with a nested selection contributes one level plus its sub-depth. -/
def selDepth : SelSet → Nat
  | .nil => 0
  | .cons .other rest => selDepth rest
  | .cons (.leafField _) rest => selDepth rest
  | .cons (.objField name sub) rest =>
    if startsWithUU name then selDepth rest
    else max (selDepth sub + 1) (selDepth rest)

/-- The nesting depth of a produced select object. -/
def entriesDepth : EntryList → Nat
  | .nil => 0
  | .cons _ (.leaf _) rest => entriesDepth rest
  | .cons _ (.sel es) rest => max (entriesDepth es + 1) (entriesDepth rest)

/-- The depth contributed by a single stored value. -/
def valueDepthE : SelectValue → Nat
  | .leaf _ => 0
  | .sel es => entriesDepth es + 1

/-- Does the selection set contain at least one surviving field node? -/
def hasSurvivor : SelSet → Bool
  | .nil => false
  | .cons .other rest => hasSurvivor rest
  | .cons (.leafField name) rest => ! startsWithUU name || hasSurvivor rest
  | .cons (.objField name _) rest => ! startsWithUU name || hasSurvivor rest

/-- The surviving field names of one selection level. -/
def selNames : SelSet → List String
  | .nil => []
  | .cons .other rest => selNames rest
  | .cons (.leafField name) rest =>
    if startsWithUU name then selNames rest else name :: selNames rest
  | .cons (.objField name _) rest =>
    if startsWithUU name then selNames rest else name :: selNames rest

/-- No two surviving fields of any level (recursively) share a name. -/
def noDupNames : SelSet → Bool
  | .nil => true
  | .cons .other rest => noDupNames rest
  | .cons (.leafField name) rest =>
    if startsWithUU name then noDupNames rest
    else (! (selNames rest).contains name) && noDupNames rest
  | .cons (.objField name sub) rest =>
    if startsWithUU name then noDupNames rest
    else ((! (selNames rest).contains name) && noDupNames sub) && noDupNames rest

/-- Every kept nested selection has at least one survivor, recursively
(so no nested node collapses to the boolean marker). -/
def cleanSel : SelSet → Bool
  | .nil => true
  | .cons .other rest => cleanSel rest
  | .cons (.leafField _) rest => cleanSel rest
  | .cons (.objField name sub) rest =>
    if startsWithUU name then cleanSel rest
    else (hasSurvivor sub && cleanSel sub) && cleanSel rest

/-- No key at any level of the produced object starts with a double
underscore. -/
def noMetaKeysE : EntryList → Bool
  | .nil => true
  | .cons k (.leaf _) rest => ! startsWithUU k && noMetaKeysE rest
  | .cons k (.sel es) rest => (! startsWithUU k && noMetaKeysE es) && noMetaKeysE rest

/-- Value-level form of noMetaKeysE. -/
def noMetaKeysV : SelectValue → Bool
  | .leaf _ => true
  | .sel es => noMetaKeysE es

/-- The selection set as a list of nodes, for membership statements. -/
def selToList : SelSet → List SelNode
  | .nil => []
  | .cons n rest => n :: selToList rest

/-- Every surviving top-level field is known to the metadata table, and
carries a nested selection only if its kind is object. -/
def topWellKinded (modelFields : List (String × FieldMeta)) : SelSet → Bool
  | .nil => true
  | .cons .other rest => topWellKinded modelFields rest
  | .cons (.leafField name) rest =>
    if startsWithUU name then topWellKinded modelFields rest
    else (lookupMeta modelFields name).isSome && topWellKinded modelFields rest
  | .cons (.objField name _) rest =>
    if startsWithUU name then topWellKinded modelFields rest
    else
      (match lookupMeta modelFields name with
        | some info => info.kind == "object"
        | none => false) && topWellKinded modelFields rest

/-! ## Entry-list lemmas -/

/-- entriesDepth of a cons in terms of the stored value's depth. -/
theorem entriesDepth_cons (k : String) (v : SelectValue) (rest : EntryList) :
    entriesDepth (.cons k v rest) = max (valueDepthE v) (entriesDepth rest) := by
  cases v with
  | leaf b => simp [entriesDepth, valueDepthE]
  | sel es => simp [entriesDepth, valueDepthE]

/-- Key membership after an append. -/
theorem entriesHasKey_append (l : EntryList) (k : String) (v : SelectValue) (n : String) :
    entriesHasKey (entriesAppend l k v) n = (entriesHasKey l n || (k == n)) := by
  induction l, k, v using entriesAppend.induct with
  | case1 k v => simp [entriesAppend, entriesHasKey]
  | case2 k0 v0 rest k v ih => simp [entriesAppend, entriesHasKey, ih, Bool.or_assoc]

/-- Lookup of a different key after an append. -/
theorem entriesLookup_append_ne (l : EntryList) (k : String) (v : SelectValue) (n : String)
    (h : (k == n) = false) :
    entriesLookup (entriesAppend l k v) n = entriesLookup l n := by
  induction l, k, v using entriesAppend.induct with
  | case1 k v => simp [entriesAppend, entriesLookup, h]
  | case2 k0 v0 rest k v ih => simp [entriesAppend, entriesLookup, ih h]

/-- Lookup of a freshly appended key. -/
theorem entriesLookup_append_self (l : EntryList) (k : String) (v : SelectValue)
    (h : entriesHasKey l k = false) :
    entriesLookup (entriesAppend l k v) k = some v := by
  induction l, k, v using entriesAppend.induct with
  | case1 k v => simp [entriesAppend, entriesLookup]
  | case2 k0 v0 rest k v ih =>
    simp only [entriesHasKey, Bool.or_eq_false_iff] at h
    simp [entriesAppend, entriesLookup, h.1, ih h.2]

/-- Lookup of an overwritten key. -/
theorem entriesLookup_setKey_self (l : EntryList) (k : String) (v : SelectValue)
    (h : entriesHasKey l k = true) :
    entriesLookup (entriesSetKey l k v) k = some v := by
  induction l, k, v using entriesSetKey.induct with
  | case1 k v => simp [entriesHasKey] at h
  | case2 k0 v0 rest k v hk ih => simp [entriesSetKey, hk, entriesLookup]
  | case3 k0 v0 rest k v hk ih =>
    simp only [entriesHasKey, hk, Bool.false_or] at h
    simp [entriesSetKey, hk, entriesLookup, ih h]

/-- Lookup of an inserted key. -/
theorem entriesLookup_insert_self (l : EntryList) (k : String) (v : SelectValue) :
    entriesLookup (insertEntry l k v) k = some v := by
  by_cases h : entriesHasKey l k = true
  · simp only [insertEntry, h, if_true]
    exact entriesLookup_setKey_self l k v h
  · simp only [insertEntry, h, if_false]
    exact entriesLookup_append_self l k v (by simpa using h)

/-- Lookup of a different key after overwriting. -/
theorem entriesLookup_setKey_ne (l : EntryList) (k : String) (v : SelectValue) (n : String)
    (h : (k == n) = false) :
    entriesLookup (entriesSetKey l k v) n = entriesLookup l n := by
  induction l, k, v using entriesSetKey.induct with
  | case1 k v => simp [entriesSetKey]
  | case2 k0 v0 rest k v hk ih =>
    have hk0 : (k0 == n) = false := by
      have hkn : k0 = k := by simpa using hk
      rw [hkn]
      exact h
    simp [entriesSetKey, hk, entriesLookup, hk0, ih h]
  | case3 k0 v0 rest k v hk ih => simp [entriesSetKey, hk, entriesLookup, ih h]

/-- Lookup of a different key after an insert. -/
theorem entriesLookup_insert_ne (l : EntryList) (k : String) (v : SelectValue) (n : String)
    (h : (k == n) = false) :
    entriesLookup (insertEntry l k v) n = entriesLookup l n := by
  by_cases hk : entriesHasKey l k = true
  · simp only [insertEntry, hk, if_true]
    exact entriesLookup_setKey_ne l k v n h
  · simp only [insertEntry, hk, if_false]
    exact entriesLookup_append_ne l k v n h

/-- Appending never empties the object. -/
theorem entriesIsEmpty_append (l : EntryList) (k : String) (v : SelectValue) :
    entriesIsEmpty (entriesAppend l k v) = false := by
  cases l <;> simp [entriesAppend, entriesIsEmpty]

/-- Inserting never empties the object. -/
theorem entriesIsEmpty_insert (l : EntryList) (k : String) (v : SelectValue) :
    entriesIsEmpty (insertEntry l k v) = false := by
  cases l with
  | nil => simp [insertEntry, entriesHasKey, entriesAppend, entriesIsEmpty]
  | cons k0 v0 rest =>
    simp only [insertEntry]
    split
    · simp only [entriesSetKey]
      split <;> rfl
    · exact entriesIsEmpty_append _ k v

/-- Depth after an append. -/
theorem entriesDepth_append (l : EntryList) (k : String) (v : SelectValue) :
    entriesDepth (entriesAppend l k v) = max (entriesDepth l) (valueDepthE v) := by
  induction l, k, v using entriesAppend.induct with
  | case1 k v =>
    rw [show entriesAppend .nil k v = .cons k v .nil from rfl, entriesDepth_cons]
    simp [entriesDepth]
  | case2 k0 v0 rest k v ih =>
    rw [show entriesAppend (.cons k0 v0 rest) k v = .cons k0 v0 (entriesAppend rest k v) from rfl,
      entriesDepth_cons, ih, entriesDepth_cons]
    omega

end PFG

namespace PFG

/-- Overwriting a key leaves the key set unchanged. -/
theorem entriesHasKey_setKey (l : EntryList) (k : String) (v : SelectValue) (n : String) :
    entriesHasKey (entriesSetKey l k v) n = entriesHasKey l n := by
  induction l, k, v using entriesSetKey.induct with
  | case1 k v => simp [entriesSetKey]
  | case2 k0 v0 rest k v hk ih =>
    have hkn : k0 = k := by simpa using hk
    simp [entriesSetKey, hk, entriesHasKey, ih, hkn]
  | case3 k0 v0 rest k v hk ih => simp [entriesSetKey, hk, entriesHasKey, ih]

/-- Key membership after an insert. -/
theorem entriesHasKey_insert (l : EntryList) (k : String) (v : SelectValue) (n : String) :
    entriesHasKey (insertEntry l k v) n = (entriesHasKey l n || (k == n)) := by
  by_cases h : entriesHasKey l k = true
  · simp only [insertEntry, h, if_true, entriesHasKey_setKey]
    by_cases hkn : (k == n) = true
    · have hke : k = n := by simpa using hkn
      subst hke
      simp [h]
    · have hkf : (k == n) = false := by simpa using hkn
      simp [hkf]
  · simp only [insertEntry, h, if_false]
    exact entriesHasKey_append l k v n

/-- noMetaKeysE of a cons in terms of the stored value. -/
theorem noMetaKeysE_cons (k : String) (v : SelectValue) (rest : EntryList) :
    noMetaKeysE (.cons k v rest)
      = ((! startsWithUU k && noMetaKeysV v) && noMetaKeysE rest) := by
  cases v <;> simp [noMetaKeysE, noMetaKeysV]

/-- Appending a clean entry keeps the object meta-free. -/
theorem noMetaKeysE_append (l : EntryList) (k : String) (v : SelectValue)
    (hl : noMetaKeysE l = true) (hk : startsWithUU k = false) (hv : noMetaKeysV v = true) :
    noMetaKeysE (entriesAppend l k v) = true := by
  induction l, k, v using entriesAppend.induct with
  | case1 k v =>
    rw [show entriesAppend .nil k v = .cons k v .nil from rfl, noMetaKeysE_cons]
    simp [hk, hv, noMetaKeysE]
  | case2 k0 v0 rest k v ih =>
    rw [show entriesAppend (.cons k0 v0 rest) k v = .cons k0 v0 (entriesAppend rest k v) from rfl,
      noMetaKeysE_cons]
    rw [noMetaKeysE_cons] at hl
    simp only [Bool.and_eq_true] at hl
    simp [hl.1, ih hl.2 hk hv]

/-- Overwriting with a clean entry keeps the object meta-free. -/
theorem noMetaKeysE_setKey (l : EntryList) (k : String) (v : SelectValue)
    (hl : noMetaKeysE l = true) (hv : noMetaKeysV v = true) :
    noMetaKeysE (entriesSetKey l k v) = true := by
  induction l, k, v using entriesSetKey.induct with
  | case1 k v => simp [entriesSetKey, noMetaKeysE]
  | case2 k0 v0 rest k v hk ih =>
    rw [noMetaKeysE_cons] at hl
    simp only [Bool.and_eq_true] at hl
    simp only [entriesSetKey, hk, if_true, noMetaKeysE_cons]
    simp [hl.1.1, hv, ih hl.2 hv]
  | case3 k0 v0 rest k v hk ih =>
    rw [noMetaKeysE_cons] at hl
    simp only [Bool.and_eq_true] at hl
    have hkf : (k0 == k) = false := by simpa using hk
    simp only [entriesSetKey, hkf, Bool.false_eq_true, if_false, noMetaKeysE_cons]
    simp [hl.1.1, hl.1.2, ih hl.2 hv]

/-- Inserting a clean entry keeps the object meta-free. -/
theorem noMetaKeysE_insert (l : EntryList) (k : String) (v : SelectValue)
    (hl : noMetaKeysE l = true) (hk : startsWithUU k = false) (hv : noMetaKeysV v = true) :
    noMetaKeysE (insertEntry l k v) = true := by
  by_cases h : entriesHasKey l k = true
  · simp only [insertEntry, h, if_true]
    exact noMetaKeysE_setKey l k v hl hv
  · simp only [insertEntry, h, if_false]
    exact noMetaKeysE_append l k v hl hk hv

/-- bnsGo keeps the produced object meta-free. -/
theorem bnsGo_noMeta (s : SelSet) (acc : EntryList) :
    noMetaKeysE acc = true → noMetaKeysE (bnsGo s acc) = true := by
  induction s, acc using bnsGo.induct with
  | case1 acc => exact fun h => h
  | case2 rest acc ih => intro h; simp only [bnsGo]; exact ih h
  | case3 name rest acc h ih =>
    intro hacc
    simp only [bnsGo, h, if_true]
    exact ih hacc
  | case4 name rest acc h ih =>
    intro hacc
    simp only [bnsGo, h, Bool.false_eq_true, if_false]
    exact ih (noMetaKeysE_insert acc name (.leaf true) hacc (by simpa using h) rfl)
  | case5 name sub rest acc h ih =>
    intro hacc
    simp only [bnsGo, h, if_true]
    exact ih hacc
  | case6 name sub rest acc h entries v ih1 ih2 =>
    intro hacc
    simp only [bnsGo, h, Bool.false_eq_true, if_false]
    refine ih2 (noMetaKeysE_insert acc name _ hacc (by simpa using h) ?_)
    by_cases he : entriesIsEmpty (bnsGo sub .nil) = true
    · have hv : v = SelectValue.leaf true := by
        show (if entriesIsEmpty (bnsGo sub EntryList.nil) = true then SelectValue.leaf true
          else SelectValue.sel (bnsGo sub EntryList.nil)) = SelectValue.leaf true
        rw [if_pos he]
      rw [hv]
      rfl
    · have hv : v = SelectValue.sel (bnsGo sub EntryList.nil) := by
        show (if entriesIsEmpty (bnsGo sub EntryList.nil) = true then SelectValue.leaf true
          else SelectValue.sel (bnsGo sub EntryList.nil)) = SelectValue.sel (bnsGo sub EntryList.nil)
        rw [if_neg he]
      rw [hv]
      exact ih1 rfl

/-- A selection set without survivors leaves the accumulator unchanged. -/
theorem bnsGo_no_survivor (s : SelSet) (acc : EntryList) :
    hasSurvivor s = false → bnsGo s acc = acc := by
  induction s, acc using bnsGo.induct with
  | case1 acc => intro _; rfl
  | case2 rest acc ih => intro h; simp only [bnsGo]; exact ih (by simpa [hasSurvivor] using h)
  | case3 name rest acc h ih =>
    intro hs
    simp only [bnsGo, h, if_true]
    refine ih ?_
    simp only [hasSurvivor, Bool.or_eq_false_iff] at hs
    exact hs.2
  | case4 name rest acc h ih =>
    intro hs
    simp only [hasSurvivor, Bool.or_eq_false_iff] at hs
    rw [Bool.not_eq_false'] at hs
    exact absurd hs.1 h
  | case5 name sub rest acc h ih =>
    intro hs
    simp only [bnsGo, h, if_true]
    refine ih ?_
    simp only [hasSurvivor, Bool.or_eq_false_iff] at hs
    exact hs.2
  | case6 name sub rest acc h entries v ih1 ih2 =>
    intro hs
    simp only [hasSurvivor, Bool.or_eq_false_iff] at hs
    rw [Bool.not_eq_false'] at hs
    exact absurd hs.1 h

/-- bnsGo never empties a non-empty accumulator. -/
theorem bnsGo_nonempty_of_acc (s : SelSet) (acc : EntryList) :
    entriesIsEmpty acc = false → entriesIsEmpty (bnsGo s acc) = false := by
  induction s, acc using bnsGo.induct with
  | case1 acc => exact fun h => h
  | case2 rest acc ih => intro h; simp only [bnsGo]; exact ih h
  | case3 name rest acc h ih => intro hacc; simp only [bnsGo, h, if_true]; exact ih hacc
  | case4 name rest acc h ih =>
    intro _
    simp only [bnsGo, h, Bool.false_eq_true, if_false]
    exact ih (entriesIsEmpty_insert acc name (.leaf true))
  | case5 name sub rest acc h ih => intro hacc; simp only [bnsGo, h, if_true]; exact ih hacc
  | case6 name sub rest acc h entries v ih1 ih2 =>
    intro _
    simp only [bnsGo, h, Bool.false_eq_true, if_false]
    exact ih2 (entriesIsEmpty_insert acc name _)

/-- A surviving field guarantees a non-empty produced object. -/
theorem bnsGo_nonempty_of_survivor (s : SelSet) (acc : EntryList) :
    hasSurvivor s = true → entriesIsEmpty (bnsGo s acc) = false := by
  induction s, acc using bnsGo.induct with
  | case1 acc => intro h; simp [hasSurvivor] at h
  | case2 rest acc ih => intro h; simp only [bnsGo]; exact ih (by simpa [hasSurvivor] using h)
  | case3 name rest acc h ih =>
    intro hs
    simp only [bnsGo, h, if_true]
    simp only [hasSurvivor, h, Bool.not_true, Bool.false_or] at hs
    exact ih hs
  | case4 name rest acc h ih =>
    intro _
    simp only [bnsGo, h, Bool.false_eq_true, if_false]
    exact bnsGo_nonempty_of_acc rest _ (entriesIsEmpty_insert acc name (.leaf true))
  | case5 name sub rest acc h ih =>
    intro hs
    simp only [bnsGo, h, if_true]
    simp only [hasSurvivor, h, Bool.not_true, Bool.false_or] at hs
    exact ih hs
  | case6 name sub rest acc h entries v ih1 ih2 =>
    intro _
    simp only [bnsGo, h, Bool.false_eq_true, if_false]
    exact bnsGo_nonempty_of_acc rest _ (entriesIsEmpty_insert acc name _)

end PFG

namespace PFG

/-- A name outside the surviving names of a level is never touched at
that level. -/
theorem bnsGo_untouched (s : SelSet) (acc : EntryList) (n : String) :
    (selNames s).contains n = false →
    entriesLookup (bnsGo s acc) n = entriesLookup acc n := by
  induction s, acc using bnsGo.induct with
  | case1 acc => intro _; rfl
  | case2 rest acc ih => intro hn; simp only [bnsGo]; exact ih (by simpa [selNames] using hn)
  | case3 name rest acc h ih =>
    intro hn
    simp only [bnsGo, h, if_true]
    exact ih (by simpa [selNames, h] using hn)
  | case4 name rest acc h ih =>
    intro hn
    simp only [selNames, h, Bool.false_eq_true, if_false, List.contains_cons,
      Bool.or_eq_false_iff] at hn
    simp only [bnsGo, h, Bool.false_eq_true, if_false]
    rw [ih hn.2, entriesLookup_insert_ne]
    have : ¬ n = name := by simpa using hn.1
    simp [this]
    intro hc
    exact this hc.symm
  | case5 name sub rest acc h ih =>
    intro hn
    simp only [bnsGo, h, if_true]
    exact ih (by simpa [selNames, h] using hn)
  | case6 name sub rest acc h entries v ih1 ih2 =>
    intro hn
    simp only [selNames, h, Bool.false_eq_true, if_false, List.contains_cons,
      Bool.or_eq_false_iff] at hn
    simp only [bnsGo, h, Bool.false_eq_true, if_false]
    rw [ih2 hn.2, entriesLookup_insert_ne]
    have : ¬ n = name := by simpa using hn.1
    simp [this]
    intro hc
    exact this hc.symm

/-- A surviving field with a nested selection is stored as the recursive
translation of that selection. -/
theorem bnsGo_lookup_obj (s : SelSet) (acc : EntryList) (name : String) (sub : SelSet) :
    noDupNames s = true → SelNode.objField name sub ∈ selToList s →
    startsWithUU name = false →
    entriesLookup (bnsGo s acc) name = some (buildNestedSelect sub) := by
  induction s, acc using bnsGo.induct with
  | case1 acc => intro _ hm _; simp [selToList] at hm
  | case2 rest acc ih =>
    intro hd hm hu
    simp only [selToList, List.mem_cons] at hm
    rcases hm with hm | hm
    · cases hm
    · simp only [bnsGo]
      exact ih (by simpa [noDupNames] using hd) hm hu
  | case3 name0 rest acc h ih =>
    intro hd hm hu
    simp only [selToList, List.mem_cons] at hm
    rcases hm with hm | hm
    · cases hm
    · simp only [bnsGo, h, if_true]
      exact ih (by simpa [noDupNames, h] using hd) hm hu
  | case4 name0 rest acc h ih =>
    intro hd hm hu
    simp only [selToList, List.mem_cons] at hm
    rcases hm with hm | hm
    · cases hm
    · simp only [bnsGo, h, Bool.false_eq_true, if_false]
      simp only [noDupNames, h, Bool.false_eq_true, if_false, Bool.and_eq_true] at hd
      exact ih hd.2 hm hu
  | case5 name0 sub0 rest acc h ih =>
    intro hd hm hu
    simp only [selToList, List.mem_cons] at hm
    rcases hm with hm | hm
    · cases hm
      exact absurd h (by simp [hu])
    · simp only [bnsGo, h, if_true]
      exact ih (by simpa [noDupNames, h] using hd) hm hu
  | case6 name0 sub0 rest acc h entries v ih1 ih2 =>
    intro hd hm hu
    simp only [noDupNames, h, Bool.false_eq_true, if_false, Bool.and_eq_true] at hd
    simp only [selToList, List.mem_cons] at hm
    simp only [bnsGo, h, Bool.false_eq_true, if_false]
    rcases hm with hm | hm
    · cases hm
      rw [bnsGo_untouched rest _ name (by simpa using hd.1.1)]
      exact entriesLookup_insert_self acc name _
    · exact ih2 hd.2 hm hu

/-- A surviving field without a nested selection is stored as the boolean
marker. -/
theorem bnsGo_lookup_leaf (s : SelSet) (acc : EntryList) (name : String) :
    noDupNames s = true → SelNode.leafField name ∈ selToList s →
    startsWithUU name = false →
    entriesLookup (bnsGo s acc) name = some (.leaf true) := by
  induction s, acc using bnsGo.induct with
  | case1 acc => intro _ hm _; simp [selToList] at hm
  | case2 rest acc ih =>
    intro hd hm hu
    simp only [selToList, List.mem_cons] at hm
    rcases hm with hm | hm
    · cases hm
    · simp only [bnsGo]
      exact ih (by simpa [noDupNames] using hd) hm hu
  | case3 name0 rest acc h ih =>
    intro hd hm hu
    simp only [selToList, List.mem_cons] at hm
    rcases hm with hm | hm
    · cases hm
      exact absurd h (by simp [hu])
    · simp only [bnsGo, h, if_true]
      exact ih (by simpa [noDupNames, h] using hd) hm hu
  | case4 name0 rest acc h ih =>
    intro hd hm hu
    simp only [noDupNames, h, Bool.false_eq_true, if_false, Bool.and_eq_true] at hd
    simp only [selToList, List.mem_cons] at hm
    simp only [bnsGo, h, Bool.false_eq_true, if_false]
    rcases hm with hm | hm
    · cases hm
      rw [bnsGo_untouched rest _ name (by simpa using hd.1)]
      exact entriesLookup_insert_self acc name _
    · exact ih hd.2 hm hu
  | case5 name0 sub0 rest acc h ih =>
    intro hd hm hu
    simp only [selToList, List.mem_cons] at hm
    rcases hm with hm | hm
    · cases hm
    · simp only [bnsGo, h, if_true]
      exact ih (by simpa [noDupNames, h] using hd) hm hu
  | case6 name0 sub0 rest acc h entries v ih1 ih2 =>
    intro hd hm hu
    simp only [noDupNames, h, Bool.false_eq_true, if_false, Bool.and_eq_true] at hd
    simp only [selToList, List.mem_cons] at hm
    simp only [bnsGo, h, Bool.false_eq_true, if_false]
    rcases hm with hm | hm
    · cases hm
    · exact ih2 hd.2 hm hu

end PFG

namespace PFG

/-- Inserting a fresh key is appending it. -/
theorem insertEntry_fresh (l : EntryList) (k : String) (v : SelectValue)
    (h : entriesHasKey l k = false) :
    insertEntry l k v = entriesAppend l k v := by
  simp [insertEntry, h]

/-- Depth mirroring of the loop of buildNestedSelect: on a duplicate-free,
clean selection whose surviving names are fresh for the accumulator, the
produced object's depth is the maximum of the accumulator's depth and the
selection's surviving depth. -/
theorem bnsGo_depth (s : SelSet) (acc : EntryList) :
    noDupNames s = true → cleanSel s = true →
    (∀ n, (selNames s).contains n = true → entriesHasKey acc n = false) →
    entriesDepth (bnsGo s acc) = max (entriesDepth acc) (selDepth s) := by
  induction s, acc using bnsGo.induct with
  | case1 acc =>
    intro _ _ _
    simp [bnsGo, selDepth]
  | case2 rest acc ih =>
    intro hd hc hacc
    simp only [bnsGo, selDepth]
    exact ih (by simpa [noDupNames] using hd) (by simpa [cleanSel] using hc)
      (fun n hn => hacc n (by simpa [selNames] using hn))
  | case3 name rest acc h ih =>
    intro hd hc hacc
    simp only [bnsGo, h, if_true, selDepth]
    exact ih (by simpa [noDupNames, h] using hd) (by simpa [cleanSel, h] using hc)
      (fun n hn => hacc n (by simpa [selNames, h] using hn))
  | case4 name rest acc h ih =>
    intro hd hc hacc
    simp only [noDupNames, h, Bool.false_eq_true, if_false, Bool.and_eq_true] at hd
    simp only [cleanSel] at hc
    have hkacc : entriesHasKey acc name = false :=
      hacc name (by simp [selNames, h])
    have hacc' : ∀ n, (selNames rest).contains n = true →
        entriesHasKey (insertEntry acc name (SelectValue.leaf true)) n = false := by
      intro n hn
      rw [entriesHasKey_insert]
      have h1 : entriesHasKey acc n = false := by
        refine hacc n ?_
        simp only [selNames, h, Bool.false_eq_true, if_false]
        simp only [List.contains_cons, Bool.or_eq_true]
        simp only [beq_iff_eq]
        exact Or.inr (by simpa using hn)
      have h2 : (name == n) = false := by
        by_cases heq : name = n
        · subst heq
          exact absurd (show name ∈ selNames rest by simpa using hn) (by simpa using hd.1)
        · simp [heq]
      simp [h1, h2]
    simp only [bnsGo, h, Bool.false_eq_true, if_false, selDepth]
    rw [ih hd.2 hc hacc', insertEntry_fresh acc name (.leaf true) hkacc, entriesDepth_append]
    simp only [valueDepthE]
    omega
  | case5 name sub rest acc h ih =>
    intro hd hc hacc
    simp only [bnsGo, h, if_true, selDepth]
    exact ih (by simpa [noDupNames, h] using hd) (by simpa [cleanSel, h] using hc)
      (fun n hn => hacc n (by simpa [selNames, h] using hn))
  | case6 name sub rest acc h entries v ih1 ih2 =>
    intro hd hc hacc
    simp only [noDupNames, h, Bool.false_eq_true, if_false, Bool.and_eq_true] at hd
    simp only [cleanSel, h, Bool.false_eq_true, if_false, Bool.and_eq_true] at hc
    have hsub : entriesDepth (bnsGo sub .nil) = selDepth sub := by
      rw [ih1 hd.1.2 hc.1.2 (fun n _ => rfl)]
      simp [entriesDepth]
    have he : entriesIsEmpty (bnsGo sub .nil) = false :=
      bnsGo_nonempty_of_survivor sub .nil hc.1.1
    have hv : v = SelectValue.sel (bnsGo sub EntryList.nil) := by
      show (if entriesIsEmpty (bnsGo sub EntryList.nil) = true then SelectValue.leaf true
        else SelectValue.sel (bnsGo sub EntryList.nil)) = SelectValue.sel (bnsGo sub EntryList.nil)
      rw [if_neg (by simp [he])]
    rw [hv] at ih2
    have hkacc : entriesHasKey acc name = false :=
      hacc name (by simp [selNames, h])
    have hacc' : ∀ n, (selNames rest).contains n = true →
        entriesHasKey (insertEntry acc name (SelectValue.sel (bnsGo sub EntryList.nil))) n
          = false := by
      intro n hn
      rw [entriesHasKey_insert]
      have h1 : entriesHasKey acc n = false := by
        refine hacc n ?_
        simp only [selNames, h, Bool.false_eq_true, if_false]
        simp only [List.contains_cons, Bool.or_eq_true]
        simp only [beq_iff_eq]
        exact Or.inr (by simpa using hn)
      have h2 : (name == n) = false := by
        by_cases heq : name = n
        · subst heq
          exact absurd (show name ∈ selNames rest by simpa using hn) (by simpa using hd.1.1)
        · simp [heq]
      simp [h1, h2]
    simp only [bnsGo, h, Bool.false_eq_true, if_false, selDepth]
    have hifv : (if entriesIsEmpty (bnsGo sub EntryList.nil) = true then SelectValue.leaf true
        else SelectValue.sel (bnsGo sub EntryList.nil))
        = SelectValue.sel (bnsGo sub EntryList.nil) := by
      rw [if_neg (by simp [he])]
    rw [hifv, ih2 hd.2 hc.2 hacc',
      insertEntry_fresh acc name (SelectValue.sel (bnsGo sub EntryList.nil)) hkacc,
      entriesDepth_append]
    simp only [valueDepthE, hsub]
    omega

end PFG

namespace PFG

/-- On a well-kinded selection the top-level loop coincides with the
nested loop: every survivor is known, and carries a nested selection only
with object kind. -/
theorem bpsGo_eq_bnsGo (table : List (String × FieldMeta)) (s : SelSet) (acc : EntryList) :
    topWellKinded table s = true → bpsGo table s acc = bnsGo s acc := by
  induction s, acc using bpsGo.induct with
  | modelFields => exact table
  | case1 acc => intro _; rfl
  | case2 rest acc ih =>
    intro hw
    simp only [bpsGo, bnsGo]
    exact ih (by simpa [topWellKinded] using hw)
  | case3 name rest acc h ih =>
    intro hw
    simp only [bpsGo, bnsGo, h, if_true]
    exact ih (by simpa [topWellKinded, h] using hw)
  | case4 name rest acc h hlk ih =>
    intro hw
    simp only [topWellKinded, h, Bool.false_eq_true, if_false, Bool.and_eq_true] at hw
    rw [hlk] at hw
    simp [Option.isSome] at hw
  | case5 name rest acc h info hlk ih =>
    intro hw
    simp only [topWellKinded, h, Bool.false_eq_true, if_false, Bool.and_eq_true] at hw
    simp only [bpsGo, bnsGo, h, Bool.false_eq_true, if_false, hlk]
    exact ih hw.2
  | case6 name sub rest acc h ih =>
    intro hw
    simp only [bpsGo, bnsGo, h, if_true]
    exact ih (by simpa [topWellKinded, h] using hw)
  | case7 name sub rest acc h hlk ih =>
    intro hw
    simp only [topWellKinded, h, Bool.false_eq_true, if_false, Bool.and_eq_true] at hw
    rw [hlk] at hw
    simp at hw
  | case8 name sub rest acc h info hlk hkind ih =>
    intro hw
    simp only [bpsGo, bnsGo, h, Bool.false_eq_true, if_false, hlk, hkind, if_true]
    refine ih ?_
    simp only [topWellKinded, h, Bool.false_eq_true, if_false, Bool.and_eq_true] at hw
    exact hw.2
  | case9 name sub rest acc h info hlk hkind ih =>
    intro hw
    simp only [topWellKinded, h, Bool.false_eq_true, if_false, Bool.and_eq_true] at hw
    rw [hlk] at hw
    simp [hkind] at hw

/-- Top-level fields unknown to the metadata table are never inserted. -/
theorem bpsGo_unknown (table : List (String × FieldMeta)) (s : SelSet) (acc : EntryList)
    (n : String) :
    lookupMeta table n = none → entriesHasKey acc n = false →
    entriesHasKey (bpsGo table s acc) n = false := by
  induction s, acc using bpsGo.induct with
  | modelFields => exact table
  | case1 acc => intro _ h; exact h
  | case2 rest acc ih => intro hn hacc; simp only [bpsGo]; exact ih hn hacc
  | case3 name rest acc h ih => intro hn hacc; simp only [bpsGo, h, if_true]; exact ih hn hacc
  | case4 name rest acc h hlk ih =>
    intro hn hacc
    simp only [bpsGo, h, Bool.false_eq_true, if_false, hlk]
    exact ih hn hacc
  | case5 name rest acc h info hlk ih =>
    intro hn hacc
    simp only [bpsGo, h, Bool.false_eq_true, if_false, hlk]
    refine ih hn ?_
    rw [entriesHasKey_insert, hacc]
    have : (name == n) = false := by
      by_cases heq : name = n
      · subst heq
        rw [hlk] at hn
        cases hn
      · simp [heq]
    simp [this]
  | case6 name sub rest acc h ih => intro hn hacc; simp only [bpsGo, h, if_true]; exact ih hn hacc
  | case7 name sub rest acc h hlk ih =>
    intro hn hacc
    simp only [bpsGo, h, Bool.false_eq_true, if_false, hlk]
    exact ih hn hacc
  | case8 name sub rest acc h info hlk hkind ih =>
    intro hn hacc
    simp only [bpsGo, h, Bool.false_eq_true, if_false, hlk, hkind, if_true]
    refine ih hn ?_
    rw [entriesHasKey_insert, hacc]
    have : (name == n) = false := by
      by_cases heq : name = n
      · subst heq
        rw [hlk] at hn
        cases hn
      · simp [heq]
    simp [this]
  | case9 name sub rest acc h info hlk hkind ih =>
    intro hn hacc
    simp only [bpsGo, h, Bool.false_eq_true, if_false, hlk, hkind, Bool.false_eq_true, if_false]
    refine ih hn ?_
    rw [entriesHasKey_insert, hacc]
    have : (name == n) = false := by
      by_cases heq : name = n
      · subst heq
        rw [hlk] at hn
        cases hn
      · simp [heq]
    simp [this]

end PFG

namespace PFG

/-! ## C8 and C10: the selection translator -/

/-- C8: the generated selection translator mirrors nesting depth on
duplicate-free clean selections (nested select wrappers for fields with
sub-selections, boolean markers for fields without), skips
double-underscore fields at every level, collapses an empty surviving set
to the boolean marker, and does the same from the top level through the
metadata table when the request is well-kinded. -/
theorem selection_translation_depth_mirroring (sels : SelSet)
    (table : List (String × FieldMeta)) :
    (hasSurvivor sels = false → buildNestedSelect sels = .leaf true)
    ∧ noMetaKeysV (buildNestedSelect sels) = true
    ∧ (noDupNames sels = true → cleanSel sels = true → hasSurvivor sels = true →
        buildNestedSelect sels = .sel (bnsGo sels .nil)
        ∧ entriesDepth (bnsGo sels .nil) = selDepth sels)
    ∧ (topWellKinded table sels = true → hasSurvivor sels = true →
        buildPrismaSelect (some sels) table = some (bnsGo sels .nil))
    ∧ (noDupNames sels = true → ∀ name sub, SelNode.objField name sub ∈ selToList sels →
        startsWithUU name = false →
        entriesLookup (bnsGo sels .nil) name = some (buildNestedSelect sub))
    ∧ (noDupNames sels = true → ∀ name, SelNode.leafField name ∈ selToList sels →
        startsWithUU name = false →
        entriesLookup (bnsGo sels .nil) name = some (.leaf true)) := by
  refine ⟨ ?_, ?_, ?_, ?_, ?_, ?_ ⟩
  · intro h
    simp [buildNestedSelect, bnsGo_no_survivor sels .nil h, entriesIsEmpty]
  · by_cases he : entriesIsEmpty (bnsGo sels .nil) = true
    · simp [buildNestedSelect, he, noMetaKeysV]
    · simp only [buildNestedSelect, he, Bool.false_eq_true, if_false, noMetaKeysV]
      exact bnsGo_noMeta sels .nil rfl
  · intro h1 h2 h3
    have he := bnsGo_nonempty_of_survivor sels .nil h3
    constructor
    · simp [buildNestedSelect, he]
    · rw [bnsGo_depth sels .nil h1 h2 (fun n _ => rfl)]
      simp [entriesDepth]
  · intro hw h3
    have he := bnsGo_nonempty_of_survivor sels .nil h3
    simp [buildPrismaSelect, bpsGo_eq_bnsGo table sels .nil hw, he]
  · intro hd name sub hm hu
    exact bnsGo_lookup_obj sels .nil name sub hd hm hu
  · intro hd name hm hu
    exact bnsGo_lookup_leaf sels .nil name hd hm hu

/-- The three-level test request: name, posts(title, comments(body)). -/
def c8Sel : SelSet :=
  .cons (.leafField ("name"))
    (.cons (.objField ("posts")
      (.cons (.leafField ("title"))
        (.cons (.objField ("comments")
          (.cons (.leafField ("body")) .nil)) .nil)))
      .nil)

/-- Metadata for the test entity: name is scalar, posts is a relation. -/
def c8Table : List (String × FieldMeta) :=
  [ ("name", ⟨ "scalar", "String", false ⟩), ("posts", ⟨ "object", "Post", true ⟩) ]

/-- Witness for C8: the three-level request translates to a projection of
the same depth, and the empty selection collapses to the boolean marker. -/
theorem selection_translation_depth_mirroring_witness :
    buildNestedSelect c8Sel = .sel (bnsGo c8Sel .nil)
    ∧ entriesDepth (bnsGo c8Sel .nil) = selDepth c8Sel
    ∧ selDepth c8Sel = 2
    ∧ buildPrismaSelect (some c8Sel) c8Table = some (bnsGo c8Sel .nil)
    ∧ buildNestedSelect SelSet.nil = .leaf true
    ∧ entriesLookup (bnsGo c8Sel .nil) ("name") = some (.leaf true) := by
  have h := selection_translation_depth_mirroring c8Sel c8Table
  have h0 := selection_translation_depth_mirroring SelSet.nil c8Table
  refine ⟨ (h.2.2.1 (by decide) (by decide) (by decide)).1,
    (h.2.2.1 (by decide) (by decide) (by decide)).2, rfl,
    h.2.2.2.1 (by decide) (by decide), h0.1 (by decide), ?_ ⟩
  refine h.2.2.2.2.2 (by decide) ("name") ?_ (by decide)
  simp [c8Sel, selToList]

/-- A top-level request naming a field the table does not know. -/
def c10Sel : SelSet := .cons (.leafField ("name")) (.cons (.leafField ("ghost")) .nil)

/-- C10: the metadata-table filtering applies only at the top level — an
unknown top-level field never reaches the produced keys, while the nested
translator (which takes no table at all) keeps any surviving field,
recursing when it carries a sub-selection and marking it true otherwise. -/
theorem top_level_metadata_filtering (table : List (String × FieldMeta)) (sels : SelSet)
    (n : String) :
    (lookupMeta table n = none → entriesHasKey (bpsGo table sels .nil) n = false)
    ∧ (noDupNames sels = true → ∀ name sub, SelNode.objField name sub ∈ selToList sels →
        startsWithUU name = false →
        entriesLookup (bnsGo sels .nil) name = some (buildNestedSelect sub))
    ∧ (noDupNames sels = true → ∀ name, SelNode.leafField name ∈ selToList sels →
        startsWithUU name = false →
        entriesLookup (bnsGo sels .nil) name = some (SelectValue.leaf true)) := by
  refine ⟨ ?_, ?_, ?_ ⟩
  · intro hn
    exact bpsGo_unknown table sels .nil n hn rfl
  · intro hd name sub hm hu
    exact bnsGo_lookup_obj sels .nil name sub hd hm hu
  · intro hd name hm hu
    exact bnsGo_lookup_leaf sels .nil name hd hm hu

/-- Witness for C10: the same unknown field name is dropped at the top
level but kept by the nested translator. -/
theorem top_level_metadata_filtering_witness :
    lookupMeta c8Table ("ghost") = none
    ∧ entriesHasKey (bpsGo c8Table c10Sel .nil) ("ghost") = false
    ∧ entriesLookup (bnsGo c10Sel .nil) ("ghost") = some (SelectValue.leaf true) := by
  refine ⟨ by decide, ?_, ?_ ⟩
  · exact (top_level_metadata_filtering c8Table c10Sel ("ghost")).1 (by decide)
  · refine (top_level_metadata_filtering c8Table c10Sel ("ghost")).2.2 (by decide) ("ghost") ?_
      (by decide)
    simp [c10Sel, selToList]

end PFG

namespace PFG

/-! ## C1: no duplicate emission in the shared artifact -/

/-- A GraphQL-identifier character. -/
def IdentChar (c : Char) : Bool := c.isAlphanum || c = '_'

/-- A GraphQL identifier: non-empty, made of identifier characters. -/
def IdentName (s : String) : Bool := (! s.data.isEmpty) && s.data.all IdentChar

/-- String append acts as list append on the character data. -/
theorem data_append (a b : String) : (a ++ b).data = a.data ++ b.data := by
  cases a
  cases b
  rfl

/-- Strings with equal data are equal. -/
theorem string_data_eq {a b : String} (h : a.data = b.data) : a = b := by
  cases a
  cases b
  cases h
  rfl

/-- The data of an input header. -/
theorem inputHeader_data (n : String) :
    (inputHeader n).data = ("input ").data ++ n.data ++ (" \x7b").data := by
  simp [inputHeader, data_append]

/-- The data of an enum header. -/
theorem enumHeader_data (n : String) :
    (enumHeader n).data = ("enum ").data ++ n.data ++ (" \x7b").data := by
  simp [enumHeader, data_append]

/-- Input headers are injective in the type name. -/
theorem inputHeader_inj {m n : String} (h : inputHeader m = inputHeader n) : m = n := by
  have hd : (inputHeader m).data = (inputHeader n).data := by rw [h]
  rw [inputHeader_data, inputHeader_data] at hd
  have h1 := List.append_cancel_left ((List.append_assoc _ _ _).symm.trans
    (hd.trans (List.append_assoc _ _ _)))
  exact string_data_eq (List.append_cancel_right h1)

/-- Enum headers are injective in the type name. -/
theorem enumHeader_inj {m n : String} (h : enumHeader m = enumHeader n) : m = n := by
  have hd : (enumHeader m).data = (enumHeader n).data := by rw [h]
  rw [enumHeader_data, enumHeader_data] at hd
  have h1 := List.append_cancel_left ((List.append_assoc _ _ _).symm.trans
    (hd.trans (List.append_assoc _ _ _)))
  exact string_data_eq (List.append_cancel_right h1)

/-- An input header never equals an enum header (first characters differ). -/
theorem inputHeader_ne_enumHeader (m n : String) : inputHeader m ≠ enumHeader n := by
  intro h
  have hd : (inputHeader m).data = (enumHeader n).data := by rw [h]
  rw [inputHeader_data, enumHeader_data] at hd
  have : ("input ").data = [ 'i', 'n', 'p', 'u', 't', ' ' ] := by decide
  rw [this] at hd
  have h2 : ("enum ").data = [ 'e', 'n', 'u', 'm', ' ' ] := by decide
  rw [h2] at hd
  simp at hd

/-- A string whose head is not the header's head is not that header. -/
theorem ne_inputHeader_of_head (s : String) (n : String)
    (hs : s.data.head? ≠ some 'i') : s ≠ inputHeader n := by
  intro h
  apply hs
  rw [h, inputHeader_data]
  have : ("input ").data = [ 'i', 'n', 'p', 'u', 't', ' ' ] := by decide
  rw [this]
  rfl

/-- A string whose head is not the header's head is not that header. -/
theorem ne_enumHeader_of_head (s : String) (n : String)
    (hs : s.data.head? ≠ some 'e') : s ≠ enumHeader n := by
  intro h
  apply hs
  rw [h, enumHeader_data]
  have : ("enum ").data = [ 'e', 'n', 'u', 'm', ' ' ] := by decide
  rw [this]
  rfl

/-- Identifier strings contain no space. -/
theorem ident_no_space {s : String} (h : IdentName s = true) : ' ' ∉ s.data := by
  intro hm
  simp only [IdentName, Bool.and_eq_true, List.all_eq_true] at h
  have := h.2 ' ' hm
  simp [IdentChar] at this

/-- Identifier strings contain no colon. -/
theorem ident_no_colon {s : String} (h : IdentName s = true) : ':' ∉ s.data := by
  intro hm
  simp only [IdentName, Bool.and_eq_true, List.all_eq_true] at h
  have := h.2 ':' hm
  simp [IdentChar] at this

/-- Headers of identifier names contain a space. -/
theorem inputHeader_has_space (n : String) : ' ' ∈ (inputHeader n).data := by
  rw [inputHeader_data]
  have : ("input ").data = [ 'i', 'n', 'p', 'u', 't', ' ' ] := by decide
  rw [this]
  simp

/-- Headers of identifier names contain a space. -/
theorem enumHeader_has_space (n : String) : ' ' ∈ (enumHeader n).data := by
  rw [enumHeader_data]
  have : ("enum ").data = [ 'e', 'n', 'u', 'm', ' ' ] := by decide
  rw [this]
  simp

/-- An identifier string is never an input header. -/
theorem ident_ne_inputHeader {s : String} (h : IdentName s = true) (n : String) :
    s ≠ inputHeader n := by
  intro he
  exact ident_no_space h (he ▸ inputHeader_has_space n)

/-- An identifier string is never an enum header. -/
theorem ident_ne_enumHeader {s : String} (h : IdentName s = true) (n : String) :
    s ≠ enumHeader n := by
  intro he
  exact ident_no_space h (he ▸ enumHeader_has_space n)

/-- Headers of identifier names contain no colon. -/
theorem inputHeader_no_colon {n : String} (h : IdentName n = true) :
    ':' ∉ (inputHeader n).data := by
  rw [inputHeader_data]
  intro hm
  have h1 : (":" : String).data = [ ':' ] := by decide
  rcases List.mem_append.1 hm with hm1 | hm1
  · rcases List.mem_append.1 hm1 with hm2 | hm2
    · revert hm2
      decide
    · exact ident_no_colon h hm2
  · revert hm1
    decide

/-- Headers of identifier names contain no colon. -/
theorem enumHeader_no_colon {n : String} (h : IdentName n = true) :
    ':' ∉ (enumHeader n).data := by
  rw [enumHeader_data]
  intro hm
  rcases List.mem_append.1 hm with hm1 | hm1
  · rcases List.mem_append.1 hm1 with hm2 | hm2
    · revert hm2
      decide
    · exact ident_no_colon h hm2
  · revert hm1
    decide

/-- Field lines always contain a colon. -/
theorem inputFieldLine_has_colon (field : SchemaArg) (it : InputTypeRef) :
    ':' ∈ (inputFieldLine field it).data := by
  simp only [inputFieldLine, data_append]
  have : (": ").data = [ ':', ' ' ] := by decide
  simp [this]

/-- A field line is never an input header with an identifier name. -/
theorem inputFieldLine_ne_inputHeader (field : SchemaArg) (it : InputTypeRef)
    {n : String} (h : IdentName n = true) : inputFieldLine field it ≠ inputHeader n := by
  intro he
  exact inputHeader_no_colon h (he ▸ inputFieldLine_has_colon field it)

/-- A field line is never an enum header with an identifier name. -/
theorem inputFieldLine_ne_enumHeader (field : SchemaArg) (it : InputTypeRef)
    {n : String} (h : IdentName n = true) : inputFieldLine field it ≠ enumHeader n := by
  intro he
  exact enumHeader_no_colon h (he ▸ inputFieldLine_has_colon field it)

end PFG

namespace PFG

/-- Number of header lines for one name in a line buffer. -/
def headerCount (fc : List String) (n : String) : Nat :=
  fc.count (inputHeader n) + fc.count (enumHeader n)

/-- The no-duplicate-emission invariant: an identifier name has exactly
one header line when it is in the written set and none otherwise. -/
def NoDupHeaders (st : ResolverState) : Prop :=
  ∀ n, IdentName n = true →
    headerCount st.fileContent n = (if st.written.contains n = true then 1 else 0)

/-- Pushing a non-header line keeps a count unchanged. -/
theorem count_push_ne (fc : List String) (a x : String) (h : x ≠ a) :
    (fc ++ [ x ]).count a = fc.count a := by
  rw [List.count_append]
  have h0 : List.count a [ x ] = 0 := by
    refine List.count_eq_zero.2 ?_
    simp only [List.mem_singleton]
    intro hc
    exact h hc.symm
  omega

/-- Pushing the counted line adds one. -/
theorem count_push_eq (fc : List String) (a : String) :
    (fc ++ [ a ]).count a = fc.count a + 1 := by
  simp [List.count_append]

/-- Membership in a JavaScript-set after an add. -/
theorem setAdd_contains (l : List String) (x n : String) :
    (setAdd l x).contains n = (l.contains n || (n == x)) := by
  by_cases hx : l.contains x = true
  · simp only [setAdd, hx, if_true]
    by_cases hnx : n = x
    · subst hnx
      have hm : n ∈ l := by simpa using hx
      simp [hx, hm]
    · have hf : (n == x) = false := by simpa using hnx
      simp [hf]
  · have hxf : l.contains x = false := by simpa using hx
    simp only [setAdd, hxf, Bool.false_eq_true, if_false]
    by_cases hnx : n = x
    · subst hnx
      simp
    · have hf : (n == x) = false := by simpa using hnx
      simp [hf, hnx]

/-- One field step leaves the written set unchanged and appends at most
one field line to the output buffer. -/
theorem processInputField_state (prismaInputs : List InputType) (exIn : List String)
    (aliased : Bool) (localSnap : List String) (acc : ResolverState × List String × Nat)
    (field : SchemaArg) :
    ((processInputField prismaInputs exIn aliased localSnap acc field).1.written
        = acc.1.written)
    ∧ ((processInputField prismaInputs exIn aliased localSnap acc field).1.fileContent
          = acc.1.fileContent
      ∨ (processInputField prismaInputs exIn aliased localSnap acc field).1.fileContent
          = acc.1.fileContent ++ [ inputFieldLine field (getInputType field) ]) := by
  simp only [processInputField]
  split
  · exact ⟨ rfl, Or.inl rfl ⟩
  · split
    · exact ⟨ rfl, Or.inl rfl ⟩
    · constructor
      · split
        · rfl
        · split
          · rfl
          · split <;> rfl
      · refine Or.inr ?_
        split
        · rfl
        · split
          · rfl
          · split <;> rfl

/-- The field fold keeps the written set and all header counts. -/
theorem foldl_processInputField_headers (prismaInputs : List InputType) (exIn : List String)
    (aliased : Bool) (localSnap : List String) (fields : List SchemaArg) :
    ∀ acc : ResolverState × List String × Nat,
    ((fields.foldl (processInputField prismaInputs exIn aliased localSnap) acc).1.written
        = acc.1.written)
    ∧ (∀ n, IdentName n = true →
      headerCount
          (fields.foldl (processInputField prismaInputs exIn aliased localSnap) acc).1.fileContent
          n
        = headerCount acc.1.fileContent n) := by
  induction fields with
  | nil => intro acc; exact ⟨ rfl, fun _ _ => rfl ⟩
  | cons f fs ih =>
    intro acc
    rw [List.foldl_cons]
    have hst := processInputField_state prismaInputs exIn aliased localSnap acc f
    have hih := ih (processInputField prismaInputs exIn aliased localSnap acc f)
    refine ⟨ hih.1.trans hst.1, fun n hn => (hih.2 n hn).trans ?_ ⟩
    rcases hst.2 with h | h
    · rw [h]
    · rw [h]
      unfold headerCount
      rw [count_push_ne _ _ _ (inputFieldLine_ne_inputHeader f (getInputType f) hn),
        count_push_ne _ _ _ (inputFieldLine_ne_enumHeader f (getInputType f) hn)]

/-- One field step either leaves the accumulator unchanged or increments
the survivor count. -/
theorem processInputField_cnt (prismaInputs : List InputType) (exIn : List String)
    (aliased : Bool) (localSnap : List String) (acc : ResolverState × List String × Nat)
    (field : SchemaArg) :
    processInputField prismaInputs exIn aliased localSnap acc field = acc
    ∨ (processInputField prismaInputs exIn aliased localSnap acc field).2.2 = acc.2.2 + 1 := by
  simp only [processInputField]
  split
  · exact Or.inl rfl
  · split
    · exact Or.inl rfl
    · exact Or.inr rfl

/-- The survivor count never decreases along the field fold. -/
theorem foldl_processInputField_cnt_mono (prismaInputs : List InputType) (exIn : List String)
    (aliased : Bool) (localSnap : List String) (fields : List SchemaArg) :
    ∀ acc : ResolverState × List String × Nat,
    acc.2.2 ≤ (fields.foldl (processInputField prismaInputs exIn aliased localSnap) acc).2.2 := by
  induction fields with
  | nil => intro acc; exact le_refl _
  | cons f fs ih =>
    intro acc
    rw [List.foldl_cons]
    rcases processInputField_cnt prismaInputs exIn aliased localSnap acc f with h | h
    · rw [h]
      exact ih acc
    · calc acc.2.2 ≤ (processInputField prismaInputs exIn aliased localSnap acc f).2.2 := by omega
        _ ≤ _ := ih _

/-- A field fold with an unchanged survivor count changed nothing. -/
theorem foldl_processInputField_cnt_eq (prismaInputs : List InputType) (exIn : List String)
    (aliased : Bool) (localSnap : List String) (fields : List SchemaArg) :
    ∀ acc : ResolverState × List String × Nat,
    (fields.foldl (processInputField prismaInputs exIn aliased localSnap) acc).2.2 = acc.2.2 →
    fields.foldl (processInputField prismaInputs exIn aliased localSnap) acc = acc := by
  induction fields with
  | nil => intro acc _; rfl
  | cons f fs ih =>
    intro acc hcnt
    rw [List.foldl_cons] at hcnt ⊢
    rcases processInputField_cnt prismaInputs exIn aliased localSnap acc f with h | h
    · rw [h] at hcnt ⊢
      exact ih acc hcnt
    · have hm := foldl_processInputField_cnt_mono prismaInputs exIn aliased localSnap fs
        (processInputField prismaInputs exIn aliased localSnap acc f)
      omega

/-- Dropping the two pushed lines restores the buffer. -/
theorem dropLast_two_append (l : List String) (a b : String) :
    ((l ++ [ a, b ]).dropLast).dropLast = l := by
  have h : l ++ [ a, b ] = (l ++ [ a ]) ++ [ b ] := by simp
  rw [h, List.dropLast_concat, List.dropLast_concat]

end PFG

namespace PFG

/-- Lines that are never headers: the closer and the blank line. -/
theorem closer_ne_headers (n : String) :
    (("\x7d" : String) ≠ inputHeader n ∧ ("\x7d" : String) ≠ enumHeader n)
    ∧ (("" : String) ≠ inputHeader n ∧ ("" : String) ≠ enumHeader n) :=
  ⟨ ⟨ ne_inputHeader_of_head _ _ (by decide), ne_enumHeader_of_head _ _ (by decide) ⟩,
    ⟨ ne_inputHeader_of_head _ _ (by decide), ne_enumHeader_of_head _ _ (by decide) ⟩ ⟩

/-- Processing one input object preserves the invariant. -/
theorem processInputObject_inv (prismaInputs : List InputType) (exIn : List String)
    (aliased : Bool) (localSnap : List String) (st : ResolverState) (remaining : List String)
    (input : InputType) (st' : ResolverState) (rem' : List String)
    (hinv : NoDupHeaders st)
    (hok : processInputObject prismaInputs exIn aliased localSnap st remaining input
      = .ok (st', rem')) :
    NoDupHeaders st' := by
  simp only [processInputObject] at hok
  by_cases hlen : input.fields.length > 0
  · rw [if_pos hlen] at hok
    by_cases hlu : (localUsedNow aliased localSnap st).contains input.name = true
    · rw [if_pos hlu] at hok
      by_cases hw : st.written.contains input.name = true
      · rw [if_pos hw] at hok
        cases hok
        exact hinv
      · rw [if_neg hw] at hok
        have hwf : st.written.contains input.name = false := by simpa using hw
        set st1 : ResolverState :=
          ⟨ st.fileContent ++ [ inputHeader input.name, "" ], st.written, st.used ⟩ with hst1
        set r := input.fields.foldl (processInputField prismaInputs exIn aliased localSnap)
          (st1, remaining, 0) with hr
        have hfold := foldl_processInputField_headers prismaInputs exIn aliased localSnap
          input.fields (st1, remaining, 0)
        have hw1 : r.1.written = st.written := hfold.1
        have hc1 : ∀ n, IdentName n = true →
            r.1.fileContent.count (inputHeader n) + r.1.fileContent.count (enumHeader n)
              = st1.fileContent.count (inputHeader n)
                + st1.fileContent.count (enumHeader n) := by
          intro n hn
          have h2 := hfold.2 n hn
          unfold headerCount at h2
          exact h2
        have hfc1 : st1.fileContent = (st.fileContent ++ [ inputHeader input.name ])
            ++ [ ("" : String) ] := by
          rw [hst1]
          simp
        by_cases hcnt : r.2.2 = 0
        · rw [if_pos hcnt] at hok
          by_cases hlu2 : (localUsedNow aliased localSnap r.1).contains input.name = true
          · rw [if_pos hlu2] at hok
            cases hok
          · rw [if_neg hlu2] at hok
            cases hok
            have hid : r = (st1, remaining, 0) :=
              foldl_processInputField_cnt_eq prismaInputs exIn aliased localSnap
                input.fields (st1, remaining, 0) hcnt
            intro n hn
            rw [show r.1.fileContent = st1.fileContent from by rw [hid]]
            rw [show st1.fileContent = st.fileContent ++ [ inputHeader input.name, "" ]
              from rfl]
            rw [dropLast_two_append]
            rw [show r.1.written = st1.written from by rw [hid]]
            exact hinv n hn
        · rw [if_neg hcnt] at hok
          cases hok
          intro n hn
          unfold headerCount
          have happ : r.1.fileContent ++ [ "\x7d", "" ]
              = (r.1.fileContent ++ [ ("\x7d" : String) ]) ++ [ ("" : String) ] := by simp
          rw [show (⟨ r.1.fileContent ++ [ "\x7d", "" ], setAdd r.1.written input.name,
              r.1.used ⟩ : ResolverState).fileContent
            = r.1.fileContent ++ [ "\x7d", "" ] from rfl]
          rw [happ]
          rw [count_push_ne _ _ _ ((closer_ne_headers n).2.1),
            count_push_ne _ _ _ ((closer_ne_headers n).2.2),
            count_push_ne _ _ _ ((closer_ne_headers n).1.1),
            count_push_ne _ _ _ ((closer_ne_headers n).1.2)]
          rw [show (⟨ r.1.fileContent ++ [ "\x7d", "" ], setAdd r.1.written input.name,
              r.1.used ⟩ : ResolverState).written
            = setAdd r.1.written input.name from rfl]
          rw [hw1, setAdd_contains]
          have hbase := hinv n hn
          unfold headerCount at hbase
          by_cases hne : n = input.name
          · subst hne
            have hcin : st1.fileContent.count (inputHeader input.name)
                = st.fileContent.count (inputHeader input.name) + 1 := by
              rw [hfc1, count_push_ne _ _ _ (closer_ne_headers input.name).2.1, count_push_eq]
            have hcen : st1.fileContent.count (enumHeader input.name)
                = st.fileContent.count (enumHeader input.name) := by
              rw [hfc1, count_push_ne _ _ _ (closer_ne_headers input.name).2.2,
                count_push_ne _ _ _ (inputHeader_ne_enumHeader input.name input.name)]
            rw [hwf] at hbase
            simp only [Bool.false_eq_true, if_false] at hbase
            rw [hc1 input.name hn, hcin, hcen]
            simp only [beq_self_eq_true, Bool.or_true, if_true]
            omega
          · have hbeq : (n == input.name) = false := by simpa using hne
            have hcin : st1.fileContent.count (inputHeader n)
                = st.fileContent.count (inputHeader n) := by
              rw [hfc1, count_push_ne _ _ _ (closer_ne_headers n).2.1,
                count_push_ne _ _ _ (fun hc => hne (inputHeader_inj hc).symm)]
            have hcen : st1.fileContent.count (enumHeader n)
                = st.fileContent.count (enumHeader n) := by
              rw [hfc1, count_push_ne _ _ _ (closer_ne_headers n).2.2,
                count_push_ne _ _ _ (inputHeader_ne_enumHeader input.name n)]
            rw [hc1 n hn, hcin, hcen, hbeq]
            simp only [Bool.or_false]
            exact hbase
    · rw [if_neg hlu] at hok
      cases hok
      exact hinv
  · rw [if_neg hlen] at hok
    cases hok
    exact hinv

end PFG

namespace PFG

/-- A resolver round preserves the invariant. -/
theorem addInputObjectTypes_inv (prismaInputs : List InputType) (exIn : List String)
    (inputs : List InputType) (aliased : Bool) (localSnap : List String) :
    ∀ (st : ResolverState) (rem : List String) (st1 : ResolverState) (rem1 : List String),
    NoDupHeaders st →
    inputs.foldlM
        (fun acc input => processInputObject prismaInputs exIn aliased localSnap acc.1 acc.2 input)
        (st, rem) = .ok (st1, rem1) →
    NoDupHeaders st1 := by
  induction inputs with
  | nil =>
    intro st rem st1 rem1 hinv hok
    cases hok
    exact hinv
  | cons i is ih =>
    intro st rem st1 rem1 hinv hok
    rw [List.foldlM_cons] at hok
    cases hstep : processInputObject prismaInputs exIn aliased localSnap st rem i with
    | error e =>
      rw [hstep] at hok
      cases hok
    | ok p =>
      rw [hstep] at hok
      exact ih p.1 p.2 st1 rem1
        (processInputObject_inv prismaInputs exIn aliased localSnap st rem i p.1 p.2 hinv
          (by rw [hstep]))
        hok

/-- The fixed-point loop preserves the invariant. -/
theorem resolveInputTypesLoop_inv (prismaInputs : List InputType) (exIn : List String)
    (inputs : List InputType) :
    ∀ (fuel index : Nat) (st : ResolverState) (localSnap : List String) (aliased : Bool)
      (st' : ResolverState),
    NoDupHeaders st →
    resolveInputTypesLoop prismaInputs exIn inputs fuel index st localSnap aliased = .ok st' →
    NoDupHeaders st' := by
  intro fuel
  induction fuel with
  | zero =>
    intro index st localSnap aliased st' hinv hok
    rw [resolveInputTypesLoop.eq_def] at hok
    dsimp only at hok
    by_cases hidx : index > 5
    · rw [if_pos hidx] at hok
      cases hok
    · rw [if_neg hidx] at hok
      cases hok
  | succ fuel ih =>
    intro index st localSnap aliased st' hinv hok
    rw [resolveInputTypesLoop.eq_def] at hok
    dsimp only at hok
    by_cases hidx : index > 5
    · rw [if_pos hidx] at hok
      cases hok
    · rw [if_neg hidx] at hok
      cases hround : addInputObjectTypes prismaInputs exIn inputs aliased localSnap st with
      | error e =>
        rw [hround] at hok
        cases hok
      | ok p =>
        obtain ⟨st1, rem1⟩ := p
        rw [hround] at hok
        dsimp only at hok
        have hinv1 : NoDupHeaders st1 :=
          addInputObjectTypes_inv prismaInputs exIn inputs aliased localSnap st [] st1 rem1 hinv
            (by simpa [addInputObjectTypes] using hround)
        have hinv2 : NoDupHeaders
            ⟨ st1.fileContent, st1.written,
              st1.used ++ rem1.filter (fun item => ! st1.used.contains item) ⟩ := by
          intro n hn
          exact hinv1 n hn
        by_cases hd : (rem1.filter (fun item => ! st1.used.contains item)).length > 0
        · rw [if_pos hd] at hok
          exact ih (index + 1) _ rem1 false st' hinv2 hok
        · rw [if_neg hd] at hok
          cases hok
          exact hinv2

end PFG

namespace PFG

/-- Appending lines that are no headers keeps a count. -/
theorem count_append_no_headers (fc : List String) (xs : List String) (a : String)
    (h : ∀ x ∈ xs, x ≠ a) : (fc ++ xs).count a = fc.count a := by
  rw [List.count_append]
  have h0 : xs.count a = 0 := List.count_eq_zero.2 (fun hm => (h a hm) rfl)
  omega

/-- Emitting one enum preserves the invariant when its values are
identifiers. -/
theorem addEnumType_inv (exIn : List String) (st : ResolverState) (e : SchemaEnum)
    (hvals : ∀ v ∈ extractEnumValues e, IdentName v = true)
    (hinv : NoDupHeaders st) : NoDupHeaders (addEnumType exIn st e) := by
  simp only [addEnumType]
  by_cases hu : st.used.contains e.name = true
  · simp only [hu, Bool.not_true, Bool.false_eq_true, if_false]
    by_cases hw : st.written.contains e.name = true
    · simp only [hw, if_true]
      exact hinv
    · simp only [hw, Bool.false_eq_true, if_false]
      have hwf : st.written.contains e.name = false := by simpa using hw
      intro n hn
      have hbase := hinv n hn
      unfold headerCount at hbase ⊢
      rw [show (⟨ st.fileContent ++ [ enumHeader e.name ]
            ++ (extractEnumValues e).filter (fun v => ! exIn.contains v) ++ [ "\x7d", "" ],
          setAdd st.written e.name, st.used ⟩ : ResolverState).fileContent
        = st.fileContent ++ [ enumHeader e.name ]
            ++ (extractEnumValues e).filter (fun v => ! exIn.contains v) ++ [ "\x7d", "" ]
        from rfl]
      rw [show (⟨ st.fileContent ++ [ enumHeader e.name ]
            ++ (extractEnumValues e).filter (fun v => ! exIn.contains v) ++ [ "\x7d", "" ],
          setAdd st.written e.name, st.used ⟩ : ResolverState).written
        = setAdd st.written e.name from rfl]
      have hclose : ∀ x ∈ [ ("\x7d" : String), ("" : String) ],
          (x ≠ inputHeader n) ∧ (x ≠ enumHeader n) := by
        intro x hx
        fin_cases hx
        · exact ⟨ (closer_ne_headers n).1.1, (closer_ne_headers n).1.2 ⟩
        · exact ⟨ (closer_ne_headers n).2.1, (closer_ne_headers n).2.2 ⟩
      have hvals' : ∀ x ∈ (extractEnumValues e).filter (fun v => ! exIn.contains v),
          (x ≠ inputHeader n) ∧ (x ≠ enumHeader n) := by
        intro x hx
        have hid : IdentName x = true := hvals x (List.mem_of_mem_filter hx)
        exact ⟨ ident_ne_inputHeader hid n, ident_ne_enumHeader hid n ⟩
      rw [count_append_no_headers _ _ _ (fun x hx => (hclose x hx).1),
        count_append_no_headers _ _ _ (fun x hx => (hclose x hx).2),
        count_append_no_headers _ _ _ (fun x hx => (hvals' x hx).1),
        count_append_no_headers _ _ _ (fun x hx => (hvals' x hx).2)]
      rw [setAdd_contains]
      by_cases hne : n = e.name
      · subst hne
        rw [count_push_ne _ _ _ (fun hc => (inputHeader_ne_enumHeader e.name e.name) hc.symm),
          count_push_eq]
        rw [hwf] at hbase
        simp only [Bool.false_eq_true, if_false] at hbase
        simp only [beq_self_eq_true, Bool.or_true, if_true]
        omega
      · have hbeq : (n == e.name) = false := by simpa using hne
        rw [count_push_ne _ _ _ (fun hc => (inputHeader_ne_enumHeader n e.name) hc.symm),
          count_push_ne _ _ _ (fun hc => hne (enumHeader_inj hc).symm)]
        rw [hbeq]
        simp only [Bool.or_false]
        exact hbase
  · simp only [hu]
    simp only [Bool.not_false, if_true]
    exact hinv

/-- The enum fold preserves the invariant. -/
theorem foldl_addEnumType_inv (exIn : List String) (enums : List SchemaEnum) :
    ∀ st : ResolverState,
    (∀ e ∈ enums, ∀ v ∈ extractEnumValues e, IdentName v = true) →
    NoDupHeaders st → NoDupHeaders (enums.foldl (addEnumType exIn) st) := by
  induction enums with
  | nil => intro st _ hinv; exact hinv
  | cons e es ih =>
    intro st hvals hinv
    rw [List.foldl_cons]
    exact ih (addEnumType exIn st e)
      (fun e' he' v hv => hvals e' (by simp [he']) v hv)
      (addEnumType_inv exIn st e (fun v hv => hvals e (by simp) v hv) hinv)

/-- The initial state satisfies the invariant. -/
theorem prelude_inv (used : List String) :
    NoDupHeaders ⟨ inputTypesPrelude, [], used ⟩ := by
  intro n hn
  unfold headerCount
  have h1 : ∀ s ∈ inputTypesPrelude, (s ≠ inputHeader n) ∧ (s ≠ enumHeader n) := by
    intro s hs
    fin_cases hs
    · exact ⟨ ne_inputHeader_of_head _ _ (by decide), ne_enumHeader_of_head _ _ (by decide) ⟩
    · exact ⟨ ne_inputHeader_of_head _ _ (by decide), ne_enumHeader_of_head _ _ (by decide) ⟩
    · exact ⟨ ne_inputHeader_of_head _ _ (by decide), ne_enumHeader_of_head _ _ (by decide) ⟩
    · exact ⟨ ne_inputHeader_of_head _ _ (by decide), ne_enumHeader_of_head _ _ (by decide) ⟩
    · exact ⟨ ne_inputHeader_of_head _ _ (by decide), ne_enumHeader_of_head _ _ (by decide) ⟩
    · exact ⟨ ne_inputHeader_of_head _ _ (by decide), ne_enumHeader_of_head _ _ (by decide) ⟩
  have hc1 : inputTypesPrelude.count (inputHeader n) = 0 :=
    List.count_eq_zero.2 (fun hm => (h1 _ hm).1 rfl)
  have hc2 : inputTypesPrelude.count (enumHeader n) = 0 :=
    List.count_eq_zero.2 (fun hm => (h1 _ hm).2 rfl)
  rw [show (⟨ inputTypesPrelude, [], used ⟩ : ResolverState).fileContent = inputTypesPrelude
    from rfl]
  rw [hc1, hc2]
  rfl

/-- C1 at the resolver level: an ok result has each identifier's input
header and enum header at most once. -/
theorem getInputTypesLines_noDup (schema : Schema) (used usedModels : List String)
    (options : GeneratorOptions) (lines : List String)
    (hvals : ∀ e ∈ schema.enumTypesPrisma ++ schema.enumTypesModel,
      ∀ v ∈ extractEnumValues e, IdentName v = true)
    (hok : getInputTypesLines schema used usedModels options = .ok lines) :
    ∀ n, IdentName n = true →
      lines.count (inputHeader n) ≤ 1 ∧ lines.count (enumHeader n) ≤ 1 := by
  simp only [getInputTypesLines] at hok
  cases hloop : resolveInputTypesLoop schema.inputObjectTypesPrisma
      (options.excludeInputFields.getD [])
      (schema.inputObjectTypesPrisma ++ schema.inputObjectTypesModel) 6 0
      ⟨ inputTypesPrelude, [], used ⟩ used true with
  | error e =>
    rw [hloop] at hok
    cases hok
  | ok st1 =>
    rw [hloop] at hok
    cases hok
    have hinv1 : NoDupHeaders st1 :=
      resolveInputTypesLoop_inv schema.inputObjectTypesPrisma
        (options.excludeInputFields.getD [])
        (schema.inputObjectTypesPrisma ++ schema.inputObjectTypesModel) 6 0
        ⟨ inputTypesPrelude, [], used ⟩ used true st1 (prelude_inv used) hloop
    have hinv2 : NoDupHeaders
        ((schema.enumTypesPrisma ++ schema.enumTypesModel).foldl
          (addEnumType (options.excludeInputFields.getD [])) st1) :=
      foldl_addEnumType_inv (options.excludeInputFields.getD [])
        (schema.enumTypesPrisma ++ schema.enumTypesModel) st1 hvals hinv1
    intro n hn
    have := hinv2 n hn
    unfold headerCount at this
    by_cases hw : (((schema.enumTypesPrisma ++ schema.enumTypesModel).foldl
        (addEnumType (options.excludeInputFields.getD [])) st1).written.contains n) = true
    · rw [hw] at this
      simp only [if_true] at this
      omega
    · have hwf : (((schema.enumTypesPrisma ++ schema.enumTypesModel).foldl
          (addEnumType (options.excludeInputFields.getD [])) st1).written.contains n) = false :=
        by simpa using hw
      rw [hwf] at this
      simp only [Bool.false_eq_true, if_false] at this
      omega

end PFG

namespace PFG

/-- C1: for every catalogue (cyclic references included) whose enum values
are identifier names, a successful generate emits each input-type header
block and each enum header block at most once in the shared inputTypes
artifact, for every identifier name. -/
theorem generate_no_duplicate_blocks (doc : Document) (options : GeneratorOptions)
    (pl sg : String → String) (out : GenerateOutput)
    (hvals : ∀ e ∈ doc.schema.enumTypesPrisma ++ doc.schema.enumTypesModel,
      ∀ v ∈ extractEnumValues e, IdentName v = true)
    (hok : generate doc options pl sg = .ok out) :
    ∀ n, IdentName n = true →
      out.inputTypes.count (inputHeader n) ≤ 1 ∧ out.inputTypes.count (enumHeader n) ≤ 1 := by
  unfold generate at hok
  split at hok
  · cases hok
  next r hfold =>
    split at hok
    · cases hok
    next lines hlines =>
      cases hok
      intro n hn
      exact getInputTypesLines_noDup doc.schema r.2
        (r.1.map (fun o : SingleModelOutput => o.modelName)) options lines hvals hlines n hn

end PFG

namespace PFG

/-- Witness for the C1 theorem on the cyclic two-type catalogue. -/
theorem generate_no_duplicate_blocks_witness :
    (artifactOf (generate cycDoc findFirstOpts plSimple sgSimple)).count
        (inputHeader ("UserWhereInput")) ≤ 1
    ∧ (artifactOf (generate cycDoc findFirstOpts plSimple sgSimple)).count
        (inputHeader ("PostWhereInput")) ≤ 1
    ∧ (artifactOf (generate cycDoc findFirstOpts plSimple sgSimple)).count
        (enumHeader ("Role")) ≤ 1 := by
  cases h : generate cycDoc findFirstOpts plSimple sgSimple with
  | error e =>
    have hne : errOf (generate cycDoc findFirstOpts plSimple sgSimple) = none := by decide
    rw [h] at hne
    simp [errOf] at hne
  | ok out =>
    have h1 := generate_no_duplicate_blocks cycDoc findFirstOpts plSimple sgSimple out
      (by decide) h ("UserWhereInput") (by decide)
    have h2 := generate_no_duplicate_blocks cycDoc findFirstOpts plSimple sgSimple out
      (by decide) h ("PostWhereInput") (by decide)
    have h3 := generate_no_duplicate_blocks cycDoc findFirstOpts plSimple sgSimple out
      (by decide) h ("Role") (by decide)
    refine ⟨ ?_, ?_, ?_ ⟩
    · simpa [artifactOf, h] using h1.1
    · simpa [artifactOf, h] using h2.1
    · simpa [artifactOf, h] using h3.2

end PFG
